import Mathlib

/-!
Shallow embedding of the rinha-de-compiladores bytecode compiler and VM
(src/src/bytecode.rs, value.rs, function.rs, call_frame.rs, compiler.rs,
vm.rs), together with theorems checking the specification's claims.

Modelling conventions:
* Rust `Vec<T>` is `List T` in push order (index 0 = oldest, top = last),
  so `stack[i]` in the source is `stack[i]?` here.
* Rust `u16`/`u32`/`usize` immediates are `Nat`; `i32` integers are `Int`,
  with wrapping arithmetic made explicit through `wrap32` and the overflow
  behaviour of `checked_div`/`checked_rem` modelled exactly.
* `HashSet<String>` is a duplicate-free `List String` (Rust's iteration
  order is unspecified; the list fixes one order).
* Rust panics (out-of-bounds indexing, `expect`, `unreachable!`) surface as
  `Except.error` messages that start with `"panic: "`, distinguishing them
  from the interpreter's own `bail!`/`anyhow!` errors, whose messages are
  reproduced verbatim.
* Recursion over the AST and the VM's outer dispatch loop are fuel-indexed
  so that every definition is a computable structural recursion; fuel
  exhaustion is reported as the artificial error `"out of fuel"`.
-/

namespace Rvm

/-- The VM opcode set, from src/src/bytecode.rs (enum `Instruction`) plus the
`TailCall` opcode interpreted by src/src/vm.rs line 465.  Constructor names
track the Rust variants (`true_`, `false_`, `if_`, `and_`, `or_`, `return_`
avoid Lean keywords). -/
inductive Instruction where
  | constant (index : Nat)
  | true_
  | false_
  | add
  | sub
  | mul
  | div
  | rem
  | eq
  | neq
  | gt
  | lt
  | gte
  | lte
  | and_
  | or_
  | tuple
  | first
  | second
  | print
  | globalGet (index : Nat)
  | globalSet (index : Nat)
  | localGet (slot : Nat) (identifier : Nat)
  | if_ (skip : Nat)
  | jump (skip : Nat)
  | closure (index : Nat)
  | call (arity : Nat)
  | tailCall (arity : Nat)
  | return_ (locals : Nat)
deriving DecidableEq, Repr

/-- src/src/function.rs: `pub struct Local { pub name: String }`. -/
structure Local where
  name : String
deriving DecidableEq, Repr

/-- src/src/function.rs: `pub struct Function`.  The `index` field is the
function's position in the VM's function table; src/src/vm.rs uses it as the
memoization key (lines 434, 441). -/
structure Function where
  arity : Nat
  bytecode : List Instruction
  captured : List String
  index : Nat
  locals : List Local
deriving DecidableEq, Repr

/-- src/src/value.rs: `pub enum Value`.  A closure stores its compiled
function (the Rust code stores `&'a Function`, a reference into the VM's
function table) and the captured environment. -/
inductive Value where
  | bool (b : Bool)
  | integer (i : Int)
  | string (s : String)
  | tuple (first second : Value)
  | closure (f : Function) (environment : List (String × Value))

/-- src/src/value.rs lines 43-55: `impl PartialEq for Value`.  Equality is
structural for booleans, integers, strings and tuples; every other pairing,
including two closures, is `false`. -/
def valueEq : Value → Value → Bool
  | .bool b1, .bool b2 => b1 == b2
  | .integer i1, .integer i2 => i1 == i2
  | .string s1, .string s2 => s1 == s2
  | .tuple v1 v2, .tuple v3 v4 => valueEq v1 v3 && valueEq v2 v4
  | _, _ => false

/-- The variant tag of a runtime value ("kind" in the specification). -/
inductive ValueKind where
  | bool | integer | string | tuple | closure
deriving DecidableEq, Repr

def Value.kind : Value → ValueKind
  | .bool _ => .bool
  | .integer _ => .integer
  | .string _ => .string
  | .tuple _ _ => .tuple
  | .closure _ _ => .closure

/-- A value that contains no closure anywhere (booleans, integers, strings
and tuples thereof). -/
def closureFree : Value → Bool
  | .bool _ => true
  | .integer _ => true
  | .string _ => true
  | .tuple a b => closureFree a && closureFree b
  | .closure _ _ => false

/-- src/src/value.rs: `pub enum FinalValue`. -/
inductive FinalValue where
  | bool (b : Bool)
  | integer (i : Int)
  | string (s : String)
  | tuple (first second : FinalValue)
  | closure
deriving DecidableEq, Repr

/-- A runtime `Rc<Value>` handle (src/src/vm.rs line 22: `stack:
Vec<Rc<Value>>`).  Every node Rust holds behind an `Rc` — the handle
itself, each `Tuple` component (`Box<Rc<Value>>`, src/src/value.rs line 15)
and each captured-environment entry (line 16) — carries the allocation id
of its `Rc`: `Rc::new` draws a fresh id from the VM's allocator (the
`next_id` field below), `Rc::clone` preserves the id, and `Rc::ptr_eq` is
id equality. -/
inductive HValue where
  | bool (id : Nat) (b : Bool)
  | integer (id : Nat) (i : Int)
  | string (id : Nat) (s : String)
  | tuple (id : Nat) (first second : HValue)
  | closure (id : Nat) (f : Function) (environment : List (String × HValue))

/-- The allocation id of the `Rc` holding this value. -/
def HValue.id : HValue → Nat
  | .bool i _ => i
  | .integer i _ => i
  | .string i _ => i
  | .tuple i _ _ => i
  | .closure i _ _ => i

/-- The variant tag of a runtime handle's value. -/
def HValue.kind : HValue → ValueKind
  | .bool _ _ => .bool
  | .integer _ _ => .integer
  | .string _ _ => .string
  | .tuple _ _ _ => .tuple
  | .closure _ _ _ => .closure

/-- `**a == **b` — `impl PartialEq for Value`, src/src/value.rs lines 43-53,
applied to dereferenced handles: structural on booleans, integers and
strings; the `Tuple` arm compares its `Box<Rc<Value>>` components with `Rc`
equality, which — because `Value` implements `Eq` (line 55) — is Rust's
specialized `Rc::ptr_eq(a, b) || **a == **b`; every other pairing, two
closures included, is `false`. -/
def valueRcEq : HValue → HValue → Bool
  | .bool _ b1, .bool _ b2 => b1 == b2
  | .integer _ i1, .integer _ i2 => i1 == i2
  | .string _ s1, .string _ s2 => s1 == s2
  | .tuple _ a b, .tuple _ c d =>
      (a.id == c.id || valueRcEq a c) && (b.id == d.id || valueRcEq b d)
  | _, _ => false

/-- `lhs == rhs` on two stack operands (src/src/vm.rs line 228, both of
type `Rc<Value>`): since `Value` implements `Eq`, Rust uses the specialized
`Rc` equality `Rc::ptr_eq(lhs, rhs) || **lhs == **rhs` — two handles to the
same allocation compare equal before the values are even looked at. -/
def rcEq (l r : HValue) : Bool := l.id == r.id || valueRcEq l r

/-- `lhs != rhs` (src/src/vm.rs line 232): the specialized `Rc` inequality
`!Rc::ptr_eq(lhs, rhs) && **lhs != **rhs`, where `Value` takes `ne` as the
`PartialEq` default, the negation of its `eq`. -/
def rcNe (l r : HValue) : Bool := !(l.id == r.id) && !(valueRcEq l r)

/-- A handle whose value contains no closure anywhere. -/
def hClosureFree : HValue → Bool
  | .bool _ _ => true
  | .integer _ _ => true
  | .string _ _ => true
  | .tuple _ a b => hClosureFree a && hClosureFree b
  | .closure _ _ _ => false

/-- The ids of every allocation reachable in the closure-free fragment of a
handle; a closure contributes only its own id (the structural-equality
statement below never descends into one). -/
def idsOf : HValue → List Nat
  | .tuple i a b => i :: (idsOf a ++ idsOf b)
  | v => [v.id]

mutual

/-- Forget allocation ids, leaving the underlying `Value` tree; a closure's
captured environment is erased entrywise. -/
def strip : HValue → Value
  | .bool _ b => .bool b
  | .integer _ i => .integer i
  | .string _ s => .string s
  | .tuple _ a b => .tuple (strip a) (strip b)
  | .closure _ f env => .closure f (stripEnv env)

def stripEnv : List (String × HValue) → List (String × Value)
  | [] => []
  | (s, v) :: rest => (s, strip v) :: stripEnv rest

end

mutual

/-- The `Constant` arm's `Rc::new(self.constants[index].clone())`
(src/src/vm.rs lines 138-141): one fresh allocation wrapping a clone of the
pool entry.  The pool only ever holds `Integer` and `String` values —
`create_constant` is called at the compiler's `Term::Int` and `Term::Str`
arms alone — so the clone contains no inner `Rc` and the single fresh id
`base` is exact; for the tuple and closure payloads the pool cannot hold,
the model reuses `base` on the inner nodes (Rust would share the clone's
inner `Rc`s with the pool entry — sharing that the id-free pool does not
record). -/
def constToH (base : Nat) : Value → HValue
  | .bool b => .bool base b
  | .integer i => .integer base i
  | .string s => .string base s
  | .tuple a b => .tuple base (constToH base a) (constToH base b)
  | .closure f env => .closure base f (constEnvToH base env)

def constEnvToH (base : Nat) : List (String × Value) → List (String × HValue)
  | [] => []
  | (s, v) :: rest => (s, constToH base v) :: constEnvToH base rest

end

/-- src/src/value.rs: `impl From<&Value> for FinalValue` (structural copy,
closures collapse to the opaque marker; allocation ids are forgotten). -/
def toFinal : HValue → FinalValue
  | .bool _ b => .bool b
  | .integer _ i => .integer i
  | .string _ s => .string s
  | .tuple _ a b => .tuple (toFinal a) (toFinal b)
  | .closure _ _ _ => .closure

/-- src/src/value.rs: `impl Display for Value`. -/
def display : HValue → String
  | .bool _ b => if b then "true" else "false"
  | .integer _ i => toString i
  | .string _ s => s
  | .tuple _ a b => "(" ++ display a ++ ", " ++ display b ++ ")"
  | .closure _ _ _ => "<#closure>"

/-- Two's-complement wrap of an integer into the `i32` range, modelling
Rust's release-mode wrapping `+`, `-`, `*` on `i32`. -/
def wrap32 (z : Int) : Int :=
  (z + 2147483648) % 4294967296 - 2147483648

/-- Rust `i32::checked_div`: `None` exactly when the divisor is zero or the
division overflows (`i32::MIN / -1`); otherwise division truncating toward
zero (`Int.tdiv`, matching Rust's `/`). -/
def checkedDiv (a b : Int) : Option Int :=
  if b = 0 ∨ (a = -2147483648 ∧ b = -1) then none else some (Int.tdiv a b)

/-- Rust `i32::checked_rem`: `None` exactly when the divisor is zero or
`i32::MIN % -1` overflows; otherwise the remainder of truncating division
(`Int.tmod`, matching Rust's `%`). -/
def checkedRem (a b : Int) : Option Int :=
  if b = 0 ∨ (a = -2147483648 ∧ b = -1) then none else some (Int.tmod a b)

/-- src/src/call_frame.rs: `pub struct CallFrame` (`closure: Rc<Value>`). -/
structure CallFrame where
  bytecode : List Instruction
  closure : HValue
  instruction_pointer : Nat
  frame_index : Nat

/-- src/src/vm.rs lines 13-23: `pub struct Vm`, plus two pieces of
instrumentation the Rust runtime keeps implicitly: `output`, the lines
written to stdout by `Print`, and `next_id`, the `Rc` allocator — the id
the next `Rc::new` receives (Rust gets it from the heap address of the
allocation). -/
structure Vm where
  call_frames : List CallFrame
  constants : List Value
  current_execution : Option (Nat × Int)
  functions : List Function
  globals : List (String × HValue)
  identifiers : List String
  memoization : List ((Nat × Int) × HValue)
  pure : Bool
  stack : List HValue
  output : List String
  next_id : Nat

/-- src/src/vm.rs lines 43-55: `Vm::new`. -/
def Vm.new : Vm :=
  { call_frames := [], constants := [], current_execution := none,
    functions := [], globals := [], identifiers := [], memoization := [],
    pure := true, stack := [], output := [], next_id := 0 }

/-- src/src/vm.rs lines 68-79: `Vm::create_constant`.  Refuses once the pool
has `u16::MAX` (65535) entries; otherwise returns the index of the first
`PartialEq`-equal value, or appends. -/
def create_constant (vm : Vm) (value : Value) : Except String (Nat × Vm) :=
  if vm.constants.length ≥ 65535 then
    .error "Cannot create more than 65535 constants."
  else
    match vm.constants.findIdx? (fun v => valueEq v value) with
    | some i => .ok (i, vm)
    | none => .ok (vm.constants.length,
        { vm with constants := vm.constants ++ [value] })

/-- src/src/vm.rs lines 81-92: `Vm::create_identifier`. -/
def create_identifier (vm : Vm) (identifier : String) :
    Except String (Nat × Vm) :=
  if vm.identifiers.length ≥ 65535 then
    .error "Cannot create more than 65535 identifiers."
  else
    match vm.identifiers.findIdx? (fun i => i == identifier) with
    | some i => .ok (i, vm)
    | none => .ok (vm.identifiers.length,
        { vm with identifiers := vm.identifiers ++ [identifier] })

/-- The AST of the external `rinha` front-end (`rinha::ast::Term`), as
described in specification section 3: each constructor keeps only the fields
the compiler reads (locations are dropped). -/
inductive Operation where
  | add | sub | mul | div | rem | eq | neq | gt | lt | gte | lte | and_ | or_

inductive Term where
  | int (value : Int)
  | bool (value : Bool)
  | str (value : String)
  | binary (op : Operation) (lhs rhs : Term)
  | tuple (first second : Term)
  | first (value : Term)
  | second (value : Term)
  | letE (name : String) (value next : Term)
  | var (text : String)
  | print (value : Term)
  | ifE (condition then_ otherwise : Term)
  | function (parameters : List String) (value : Term)
  | call (callee : Term) (arguments : List Term)
  | error (message : String)

/-- Modelled from the spec: `CallPosition`, the call-position flag the
compiler threads through recursive compilation (section 4.1, "Tail-call
rewriting").  The type itself is missing from src/ (src/src/compiler.rs
predates it) but src/src/vm.rs line 8 imports `compiler::CallPosition` and
line 96 passes `CallPosition::Unknown` for the top-level term. -/
inductive CallPosition where
  | tail
  | unknown
deriving DecidableEq, Repr

/-- The operator table of the `Term::Binary` arm of `Compiler::compile`
(src/src/compiler.rs lines 51-66). -/
def binaryOpInstruction : Operation → Instruction
  | .add => .add
  | .sub => .sub
  | .mul => .mul
  | .div => .div
  | .rem => .rem
  | .eq => .eq
  | .neq => .neq
  | .gt => .gt
  | .lt => .lt
  | .gte => .gte
  | .lte => .lte
  | .and_ => .and_
  | .or_ => .or_

/-- src/src/compiler.rs lines 12-16: `pub struct Compiler`.  The `parent`
field is only ever inspected through `is_some()` (line 90), so it is
modelled by the boolean `hasParent`. -/
structure Compiler where
  hasParent : Bool
  bytecode : List Instruction
  locals : List Local

/-- src/src/compiler.rs lines 19-25: `Compiler::new`. -/
def Compiler.new (hasParent : Bool) : Compiler :=
  { hasParent, bytecode := [], locals := [] }

/-- src/src/compiler.rs lines 194-196: `Compiler::resolve_local`, the index
of the first local whose name matches. -/
def resolve_local (c : Compiler) (name : String) : Option Nat :=
  c.locals.findIdx? (fun l => l.name == name)

/-- Insertion into a `HashSet<String>` modelled on lists: append the name
unless it is already present. -/
def insertName (s : List String) (n : String) : List String :=
  if s.contains n then s else s ++ [n]

/-- `HashSet::extend`: insert every element of `b` into `a`. -/
def unionNames (a b : List String) : List String := b.foldl insertName a

mutual

/-- src/src/compiler.rs lines 199-287: `compute_captured_parameters`, the
free variables of a term relative to the accumulated scope `environment`.
Fuel-indexed (the `none` result is the fuel-exhaustion artifact). -/
def computeCaptured : Nat → Term → List String → Option (List String)
  | 0, _, _ => none
  | _ + 1, .bool _, _ => some []
  | _ + 1, .int _, _ => some []
  | _ + 1, .str _, _ => some []
  | _ + 1, .error _, _ => some []
  | fuel + 1, .first t, env => computeCaptured fuel t env
  | fuel + 1, .second t, env => computeCaptured fuel t env
  | fuel + 1, .tuple a b, env => do
      let ca ← computeCaptured fuel a env
      let cb ← computeCaptured fuel b env
      some (unionNames (unionNames [] ca) cb)
  | fuel + 1, .binary _ l r, env => do
      let cl ← computeCaptured fuel l env
      let cr ← computeCaptured fuel r env
      some (unionNames (unionNames [] cl) cr)
  | fuel + 1, .ifE c t e, env => do
      let cc ← computeCaptured fuel c env
      let ct ← computeCaptured fuel t env
      let ce ← computeCaptured fuel e env
      some (unionNames (unionNames (unionNames [] cc) ct) ce)
  | fuel + 1, .print t, env => computeCaptured fuel t env
  | fuel + 1, .letE name v next, env => do
      let cv ← computeCaptured fuel v env
      let cn ← computeCaptured fuel next (insertName env name)
      some (unionNames (unionNames [] cv) cn)
  | fuel + 1, .call callee args, env => do
      let cc ← computeCaptured fuel callee env
      computeCapturedArgs fuel args env (unionNames [] cc)
  | fuel + 1, .function params body, env =>
      computeCaptured fuel body (params.foldl insertName env)
  | _ + 1, .var v, env => some (if env.contains v then [] else [v])

/-- The argument loop of the `Term::Call` arm of
`compute_captured_parameters`. -/
def computeCapturedArgs : Nat → List Term → List String → List String →
    Option (List String)
  | 0, _, _, _ => none
  | _ + 1, [], _, acc => some acc
  | fuel + 1, a :: rest, env, acc => do
      let ca ← computeCaptured fuel a env
      computeCapturedArgs fuel rest env (unionNames acc ca)

end

mutual

/-- src/src/compiler.rs lines 26-192: `Compiler::compile`, threading the
call-position flag.  Everything except that flag is a direct transcription
of the source; the flag itself is modelled from the spec (section 4.1): the
position is `Tail` at the root of a function body, at both branches of an
`if` compiled in `Tail` position and at the `next` of a `let` compiled in
`Tail` position, and `Unknown` everywhere else, and a `Call` term compiled
in `Tail` position emits `TailCall` instead of `Call`. -/
def compileF : Nat → Term → Compiler → Vm → CallPosition →
    Except String (Compiler × Vm)
  | 0, _, _, _, _ => .error "out of fuel"
  | fuel + 1, t, c, vm, position =>
    match t with
    | .int i => do
        let (index, vm) ← create_constant vm (.integer i)
        let newcode := c.bytecode ++ [Instruction.constant index]
        .ok ({ c with bytecode := newcode }, vm)
    | .bool b =>
        let newcode := c.bytecode ++ [if b then .true_ else .false_]
        .ok ({ c with bytecode := newcode }, vm)
    | .str s => do
        let (index, vm) ← create_constant vm (.string s)
        let newcode := c.bytecode ++ [Instruction.constant index]
        .ok ({ c with bytecode := newcode }, vm)
    | .binary op lhs rhs => do
        let (c, vm) ← compileF fuel lhs c vm .unknown
        let (c, vm) ← compileF fuel rhs c vm .unknown
        let newcode := c.bytecode ++ [binaryOpInstruction op]
        .ok ({ c with bytecode := newcode }, vm)
    | .tuple a b => do
        let (c, vm) ← compileF fuel a c vm .unknown
        let (c, vm) ← compileF fuel b c vm .unknown
        .ok ({ c with bytecode := c.bytecode ++ [Instruction.tuple] }, vm)
    | .first t => do
        let (c, vm) ← compileF fuel t c vm .unknown
        .ok ({ c with bytecode := c.bytecode ++ [Instruction.first] }, vm)
    | .second t => do
        let (c, vm) ← compileF fuel t c vm .unknown
        .ok ({ c with bytecode := c.bytecode ++ [Instruction.second] }, vm)
    | .letE name value next => do
        let (c, vm) ← compileF fuel value c vm .unknown
        let (index, vm) ← create_identifier vm name
        let c :=
          if c.hasParent then { c with locals := c.locals ++ [⟨name⟩] }
          else { c with bytecode := c.bytecode ++ [Instruction.globalSet index] }
        compileF fuel next c vm position
    | .var text => do
        let (identifier_index, vm) ← create_identifier vm text
        match resolve_local c text with
        | some index =>
            let newcode := c.bytecode ++ [Instruction.localGet index identifier_index]
            .ok ({ c with bytecode := newcode }, vm)
        | none =>
            let newcode := c.bytecode ++ [Instruction.globalGet identifier_index]
            .ok ({ c with bytecode := newcode }, vm)
    | .print t => do
        let (c, vm) ← compileF fuel t c vm .unknown
        .ok ({ c with bytecode := c.bytecode ++ [Instruction.print] }, vm)
    | .ifE condition then_ otherwise => do
        let (c, vm) ← compileF fuel condition c vm .unknown
        let c := { c with bytecode := c.bytecode ++ [Instruction.if_ 0] }
        let if_address := c.bytecode.length - 1
        if if_address > 2147483647 then .error "Instruction too long." else do
        let (c, vm) ← compileF fuel then_ c vm position
        let c := { c with bytecode := c.bytecode ++ [Instruction.jump 0] }
        let jump_address := c.bytecode.length - 1
        if jump_address > 2147483647 then .error "Instruction too long." else do
        let patched := c.bytecode.set if_address
          (.if_ (jump_address - if_address))
        let c := { c with bytecode := patched }
        let (c, vm) ← compileF fuel otherwise c vm position
        let after_address := c.bytecode.length - 1
        if after_address > 2147483647 then .error "Instruction too long." else do
        let patched := c.bytecode.set jump_address
          (.jump (after_address - jump_address))
        .ok ({ c with bytecode := patched }, vm)
    | .function params body => do
        let captured ←
          match computeCaptured fuel body (params.foldl insertName []) with
          | some captured => Except.ok captured
          | none => Except.error "out of fuel"
        let child : Compiler :=
          { hasParent := true, bytecode := [],
            locals := params.map (fun p => ⟨p⟩) }
        let (child, vm) ← compileF fuel body child vm .tail
        let bytecode := child.bytecode ++ [Instruction.return_ child.locals.length]
        let function : Function :=
          { arity := params.length, bytecode, captured,
            index := vm.functions.length, locals := child.locals }
        let vm := { vm with functions := vm.functions ++ [function] }
        let newcode := c.bytecode ++ [Instruction.closure (vm.functions.length - 1)]
        .ok ({ c with bytecode := newcode }, vm)
    | .call callee args => do
        let (c, vm) ← compileF fuel callee c vm .unknown
        let arity := args.length
        let (c, vm) ← compileArgsF fuel args c vm
        let opcode : Instruction :=
          if position = .tail then .tailCall arity else .call arity
        let newcode := c.bytecode ++ [opcode]
        .ok ({ c with bytecode := newcode }, vm)
    | .error message => .error message

/-- The argument loop of the `Term::Call` arm: compile each argument
left-to-right (call arguments are never in tail position). -/
def compileArgsF : Nat → List Term → Compiler → Vm →
    Except String (Compiler × Vm)
  | 0, _, _, _ => .error "out of fuel"
  | _ + 1, [], c, vm => .ok (c, vm)
  | fuel + 1, a :: rest, c, vm => do
      let (c, vm) ← compileF fuel a c vm .unknown
      compileArgsF fuel rest c vm

end

/-- src/src/vm.rs lines 94-97: `Vm::compile` — a fresh parentless compiler
and the `Unknown` call position for the top-level term. -/
def vmCompile (fuel : Nat) (t : Term) (vm : Vm) :
    Except String (Compiler × Vm) :=
  compileF fuel t (Compiler.new false) vm .unknown

/-- What an executed instruction tells the dispatch loop of src/src/vm.rs:
fall through to the next instruction, start skipping `n` instructions
(`skip = jump; continue`), or break back to the outer frame loop. -/
inductive StepEffect where
  | next
  | skipping (n : Nat)
  | suspend
deriving DecidableEq, Repr

/-- src/src/vm.rs lines 25-40: the `pop_operands!` macro — pop the
right-hand side, then the left-hand side. -/
def popOperands (stack : List HValue) :
    Except String (HValue × HValue × List HValue) :=
  match stack.getLast? with
  | none => .error "Expected operand, but stack was empty."
  | some rhs =>
      match stack.dropLast.getLast? with
      | none => .error "Expected operand, but stack was empty."
      | some lhs => .ok (lhs, rhs, stack.dropLast.dropLast)

/-- Pop `n` values from the operand stack, silently stopping at the bottom
(`Vec::pop` returns `None` on an empty vector and the source ignores it). -/
def popN (stack : List HValue) (n : Nat) : List HValue :=
  stack.take (stack.length - n)

/-- The environment construction of the `Instruction::Closure` arm
(src/src/vm.rs lines 390-415): walk the function's captured names; a name
that is a local of the enclosing closure's function is copied from the
operand stack, otherwise it is looked up in the enclosing environment, and
otherwise dropped.  Every copy is an `Rc::clone`: the handle keeps its
allocation id. -/
def buildClosureEnv (stack : List HValue) (frame_index : Nat)
    (parent_function : Function)
    (parent_environment : List (String × HValue)) :
    List String → Except String (List (String × HValue))
  | [] => .ok []
  | captured :: rest => do
      let tail_env ← buildClosureEnv stack frame_index parent_function
        parent_environment rest
      match parent_function.locals.findIdx? (fun l => l.name == captured) with
      | some index =>
          match stack[frame_index + index]? with
          | some v => .ok ((captured, v) :: tail_env)
          | none => .error "panic: stack index out of bounds"
      | none =>
          match parent_environment.find? (fun v => v.fst == captured) with
          | some (_, v) => .ok ((captured, v) :: tail_env)
          | none => .ok tail_env

/-- One executed instruction of the dispatch loop, src/src/vm.rs lines
137-548.  `ip` is the already-incremented instruction pointer (the source
increments it at the top of the loop body), `frame_index` and `environment`
are the per-frame values read at lines 116-121.  Every `Rc::new` of the
source takes the allocator's current id and bumps it; pushes that clone an
existing `Rc` (`LocalGet`, `GlobalGet`, `First`, `Second`, a memoization
hit, `Return`) keep the handle's id. -/
def step (vm : Vm) (instruction : Instruction) (ip : Nat)
    (frame_index : Nat) (environment : List (String × HValue)) :
    Except String (Vm × StepEffect) :=
  match instruction with
  | .constant index =>
      match vm.constants[index]? with
      | some value =>
          .ok ({ vm with stack := vm.stack ++ [constToH vm.next_id value], next_id := vm.next_id + 1 }, .next)
      | none => .error "panic: constant index out of bounds"
  | .true_ =>
      .ok ({ vm with stack := vm.stack ++ [HValue.bool vm.next_id true], next_id := vm.next_id + 1 }, .next)
  | .false_ =>
      .ok ({ vm with stack := vm.stack ++ [HValue.bool vm.next_id false], next_id := vm.next_id + 1 }, .next)
  | .add => do
      let (lhs, rhs, rest) ← popOperands vm.stack
      match lhs, rhs with
      | .integer _ a, .integer _ b =>
          .ok ({ vm with stack := rest ++ [HValue.integer vm.next_id (wrap32 (a + b))], next_id := vm.next_id + 1 }, .next)
      | .string _ a, .integer _ b =>
          .ok ({ vm with stack := rest ++ [HValue.string vm.next_id (a ++ toString b)], next_id := vm.next_id + 1 }, .next)
      | .integer _ a, .string _ b =>
          .ok ({ vm with stack := rest ++ [HValue.string vm.next_id (toString a ++ b)], next_id := vm.next_id + 1 }, .next)
      | .string _ a, .string _ b =>
          .ok ({ vm with stack := rest ++ [HValue.string vm.next_id (a ++ b)], next_id := vm.next_id + 1 }, .next)
      | _, _ => .error "Wrong types for add."
  | .sub => do
      let (lhs, rhs, rest) ← popOperands vm.stack
      match lhs, rhs with
      | .integer _ a, .integer _ b =>
          .ok ({ vm with stack := rest ++ [HValue.integer vm.next_id (wrap32 (a - b))], next_id := vm.next_id + 1 }, .next)
      | _, _ => .error "Operands must be both integers."
  | .mul => do
      let (lhs, rhs, rest) ← popOperands vm.stack
      match lhs, rhs with
      | .integer _ a, .integer _ b =>
          .ok ({ vm with stack := rest ++ [HValue.integer vm.next_id (wrap32 (a * b))], next_id := vm.next_id + 1 }, .next)
      | _, _ => .error "Operands must be both integers."
  | .div => do
      let (lhs, rhs, rest) ← popOperands vm.stack
      match lhs, rhs with
      | .integer _ a, .integer _ b =>
          match checkedDiv a b with
          | some result =>
              .ok ({ vm with stack := rest ++ [HValue.integer vm.next_id result], next_id := vm.next_id + 1 }, .next)
          | none => .error "Attempted to divide by zero"
      | _, _ => .error "Operands must be both integers."
  | .rem => do
      let (lhs, rhs, rest) ← popOperands vm.stack
      match lhs, rhs with
      | .integer _ a, .integer _ b =>
          match checkedRem a b with
          | some result =>
              .ok ({ vm with stack := rest ++ [HValue.integer vm.next_id result], next_id := vm.next_id + 1 }, .next)
          | none => .error "Attempted to take remainder by zero"
      | _, _ => .error "Operands must be both integers."
  | .eq => do
      let (lhs, rhs, rest) ← popOperands vm.stack
      .ok ({ vm with stack := rest ++ [HValue.bool vm.next_id (rcEq lhs rhs)], next_id := vm.next_id + 1 }, .next)
  | .neq => do
      let (lhs, rhs, rest) ← popOperands vm.stack
      .ok ({ vm with stack := rest ++ [HValue.bool vm.next_id (rcNe lhs rhs)], next_id := vm.next_id + 1 }, .next)
  | .gt => do
      let (lhs, rhs, rest) ← popOperands vm.stack
      match lhs, rhs with
      | .integer _ a, .integer _ b =>
          .ok ({ vm with stack := rest ++ [HValue.bool vm.next_id (decide (a > b))], next_id := vm.next_id + 1 }, .next)
      | _, _ => .error "Operands must be both integers."
  | .lt => do
      let (lhs, rhs, rest) ← popOperands vm.stack
      match lhs, rhs with
      | .integer _ a, .integer _ b =>
          .ok ({ vm with stack := rest ++ [HValue.bool vm.next_id (decide (a < b))], next_id := vm.next_id + 1 }, .next)
      | _, _ => .error "Operands must be both integers."
  | .gte => do
      let (lhs, rhs, rest) ← popOperands vm.stack
      match lhs, rhs with
      | .integer _ a, .integer _ b =>
          .ok ({ vm with stack := rest ++ [HValue.bool vm.next_id (decide (a ≥ b))], next_id := vm.next_id + 1 }, .next)
      | _, _ => .error "Operands must be both integers."
  | .lte => do
      let (lhs, rhs, rest) ← popOperands vm.stack
      match lhs, rhs with
      | .integer _ a, .integer _ b =>
          .ok ({ vm with stack := rest ++ [HValue.bool vm.next_id (decide (a ≤ b))], next_id := vm.next_id + 1 }, .next)
      | _, _ => .error "Operands must be both integers."
  | .and_ => do
      let (lhs, rhs, rest) ← popOperands vm.stack
      match lhs, rhs with
      | .bool _ a, .bool _ b =>
          .ok ({ vm with stack := rest ++ [HValue.bool vm.next_id (a && b)], next_id := vm.next_id + 1 }, .next)
      | _, _ => .error "Operands must be both integers."
  | .or_ => do
      let (lhs, rhs, rest) ← popOperands vm.stack
      match lhs, rhs with
      | .bool _ a, .bool _ b =>
          .ok ({ vm with stack := rest ++ [HValue.bool vm.next_id (a || b)], next_id := vm.next_id + 1 }, .next)
      | _, _ => .error "Operands must be both integers."
  | .tuple => do
      let (first, second, rest) ← popOperands vm.stack
      .ok ({ vm with stack := rest ++ [HValue.tuple vm.next_id first second], next_id := vm.next_id + 1 }, .next)
  | .first =>
      match vm.stack.getLast? with
      | none => .error "Expected operand, but self.stack was empty."
      | some value =>
          match value with
          | .tuple _ first _ =>
              .ok ({ vm with stack := vm.stack.dropLast ++ [first] }, .next)
          | _ => .error "Tried to compute `first` of a non tuple type."
  | .second =>
      match vm.stack.getLast? with
      | none => .error "Expected operand, but self.stack was empty."
      | some value =>
          match value with
          | .tuple _ _ second =>
              .ok ({ vm with stack := vm.stack.dropLast ++ [second] }, .next)
          | _ => .error "Tried to compute `second` of a non tuple type."
  | .print =>
      match vm.stack.getLast? with
      | none =>
          .error "Error printing. No value found in the self.stack to be set."
      | some value =>
          let newout := vm.output ++ [display value]
          .ok ({ vm with pure := false, output := newout }, .next)
  | .globalSet index =>
      match vm.identifiers[index]? with
      | none => .error "panic: identifier index out of bounds"
      | some identifier =>
          match vm.stack.getLast? with
          | none => .error
              "Error setting global variable. No value found in the self.stack to be set."
          | some value =>
              let newglobals := vm.globals ++ [(identifier, value)]
              .ok ({ vm with stack := vm.stack.dropLast, globals := newglobals }, .next)
  | .globalGet index =>
      match vm.identifiers[index]? with
      | none => .error "panic: identifier index out of bounds"
      | some identifier =>
          match (environment.find? (fun v => v.fst == identifier)).orElse
              (fun _ => vm.globals.find? (fun g => g.fst == identifier)) with
          | some (_, value) =>
              .ok ({ vm with stack := vm.stack ++ [value] }, .next)
          | none => .error s!"Unknown variable {identifier}."
  | .localGet slot identifier_index =>
      if vm.stack.length ≤ frame_index + slot then
        match vm.identifiers[identifier_index]? with
        | none => .error "panic: identifier index out of bounds"
        | some identifier => .error s!"Variable {identifier} not found."
      else
        match vm.stack[frame_index + slot]? with
        | some value =>
            .ok ({ vm with stack := vm.stack ++ [value] }, .next)
        | none => .error "panic: stack index out of bounds"
  | .if_ jumpSkip =>
      match vm.stack.getLast? with
      | none =>
          .error "Error in if. No value found in the self.stack to be tested."
      | some value =>
          match value with
          | .bool _ b =>
              if b then .ok ({ vm with stack := vm.stack.dropLast }, .next)
              else .ok ({ vm with stack := vm.stack.dropLast }, .skipping jumpSkip)
          | _ => .error "Type error: if condition must evaluate to a boolean."
  | .jump jumpSkip => .ok (vm, .skipping jumpSkip)
  | .closure index =>
      match vm.functions[index]? with
      | none => .error "panic: function index out of bounds"
      | some function =>
          match vm.call_frames.getLast? with
          | none => .error "panic: There is always at least one call frame active."
          | some parent => do
              let environment ←
                match parent.closure with
                | .closure _ parent_function parent_environment =>
                    buildClosureEnv vm.stack frame_index parent_function
                      parent_environment function.captured
                | _ => .ok []
              let newstack := vm.stack ++ [HValue.closure vm.next_id function environment]
              .ok ({ vm with stack := newstack, next_id := vm.next_id + 1 }, .next)
  | .call arity =>
      if vm.stack.length < arity + 1 then
        .error "panic: stack underflow in call"
      else
        match vm.stack[vm.stack.length - 1 - arity]? with
        | none => .error "panic: stack underflow in call"
        | some closureValue =>
            match closureValue with
            | .closure _ function _ =>
                if function.arity ≠ arity then
                  .error "Attempted to call function with wrong number of arguments."
                else
                  let probe : Option HValue :=
                    if arity = 1 then
                      match vm.stack[vm.stack.length - 1]? with
                      | some (.integer _ i) =>
                          match vm.memoization.find?
                              (fun m => m.fst.fst == function.index &&
                                        m.fst.snd == i) with
                          | some (_, memoized) => some memoized
                          | none => none
                      | _ => none
                    else none
                  match probe with
                  | some memoized =>
                      let newstack :=
                        vm.stack.take (vm.stack.length - 2) ++ [memoized]
                      .ok ({ vm with stack := newstack }, .next)
                  | none =>
                      let vm :=
                        if arity = 1 then
                          match vm.stack[vm.stack.length - 1]? with
                          | some (.integer _ i) =>
                              { vm with current_execution := some (function.index, i) }
                          | _ => vm
                        else vm
                      match vm.call_frames.getLast? with
                      | none =>
                          .error "panic: There is at least one active call frame at all times."
                      | some current_frame =>
                          let new_frame : CallFrame :=
                            { bytecode := function.bytecode,
                              closure := closureValue,
                              instruction_pointer := 0,
                              frame_index := vm.stack.length - arity }
                          let newframes :=
                            vm.call_frames.dropLast ++
                              [{ current_frame with instruction_pointer := ip },
                               new_frame]
                          .ok ({ vm with call_frames := newframes }, .suspend)
            | _ => .error "Attempted to call value that is not a function!"
  | .tailCall arity =>
      if vm.stack.length < arity + 1 then
        .error "panic: stack underflow in tail call"
      else
        match vm.stack[vm.stack.length - 1 - arity]? with
        | none => .error "panic: stack underflow in tail call"
        | some closureValue =>
            match closureValue with
            | .closure _ function _ =>
                if function.arity ≠ arity then
                  .error "Attempted to call function with wrong number of arguments."
                else
                  -- The memoization probe reads `stack[len - 2]`
                  -- (src/src/vm.rs line 476); for arity 1 that slot holds
                  -- the callee closure, never an integer.
                  let probe : Option HValue :=
                    if arity = 1 then
                      match vm.stack[vm.stack.length - 2]? with
                      | some (.integer _ i) =>
                          match vm.memoization.find?
                              (fun m => m.fst.fst == function.index &&
                                        m.fst.snd == i) with
                          | some (_, memoized) => some memoized
                          | none => none
                      | _ => none
                    else none
                  match probe with
                  | some memoized =>
                      let newstack :=
                        vm.stack.take (vm.stack.length - 2) ++ [memoized]
                      .ok ({ vm with stack := newstack }, .next)
                  | none =>
                      let vm :=
                        if arity = 1 then
                          match vm.stack[vm.stack.length - 2]? with
                          | some (.integer _ i) =>
                              { vm with current_execution := some (function.index, i) }
                          | _ => vm
                        else vm
                      match vm.call_frames.getLast? with
                      | none =>
                          .error "panic: A tail call can only exist within another function"
                      | some last_frame =>
                          match last_frame.closure with
                          | .closure _ caller_function _ =>
                              let locals_to_remove :=
                                caller_function.locals.length
                              let kept := vm.stack.drop
                                (vm.stack.length - arity - 1)
                              let remaining := vm.stack.take
                                (vm.stack.length - arity - 1)
                              if remaining.length < locals_to_remove + 1 then
                                .error "panic: stack underflow in tail call"
                              else
                                let new_stack :=
                                  remaining.take
                                    (remaining.length - locals_to_remove - 1)
                                    ++ kept
                                let new_frame : CallFrame :=
                                  { bytecode := function.bytecode,
                                    closure := closureValue,
                                    instruction_pointer := 0,
                                    frame_index := new_stack.length - arity }
                                let newframes :=
                                  vm.call_frames.dropLast ++ [new_frame]
                                .ok ({ vm with stack := new_stack, call_frames := newframes }, .suspend)
                          | _ => .error "panic: unreachable"
            | _ => .error "Attempted to call value that is not a function!"
  | .return_ locals =>
      match vm.stack.getLast? with
      | none => .error "panic: Function must have a return value"
      | some result =>
          let vm := { vm with stack := vm.stack.dropLast }
          let vm :=
            match vm.current_execution with
            | some execution =>
                if vm.pure then
                  { vm with memoization := vm.memoization ++ [(execution, result)] }
                else vm
            | none => vm
          let vm := { vm with current_execution := none }
          let vm := { vm with stack := popN vm.stack (locals + 1) }
          .ok ({ vm with stack := vm.stack ++ [result], call_frames := vm.call_frames.dropLast }, .suspend)

/-- The inner dispatch loop of src/src/vm.rs lines 128-550: iterate over the
remaining instructions, honouring the skip counter; stop on a frame switch
(`break`) or when the instruction slice is exhausted. -/
def innerLoop (vm : Vm) : List Instruction → Nat → Nat →
    List (String × HValue) → Nat → Except String Vm
  | [], _, _, _, _ => .ok vm
  | instruction :: rest, ip, frame_index, environment, skip =>
      if skip > 0 then
        innerLoop vm rest (ip + 1) frame_index environment (skip - 1)
      else
        match step vm instruction (ip + 1) frame_index environment with
        | .error e => .error e
        | .ok (vm, .next) =>
            innerLoop vm rest (ip + 1) frame_index environment 0
        | .ok (vm, .skipping n) =>
            innerLoop vm rest (ip + 1) frame_index environment n
        | .ok (vm, .suspend) => .ok vm

/-- The outer loop of src/src/vm.rs lines 109-557: while a call frame
exists, reset the purity flag and dispatch from its saved instruction
pointer; when the frame stack empties, export the last stack value. -/
def runLoop : Nat → Vm → Except String FinalValue
  | 0, _ => .error "out of fuel"
  | fuel + 1, vm =>
      match vm.call_frames.getLast? with
      | none =>
          match vm.stack.getLast? with
          | some value => .ok (toFinal value)
          | none =>
              .error "panic: At the end of the execution, there must be at least one value in the self.stack."
      | some call_frame =>
          if call_frame.instruction_pointer > call_frame.bytecode.length then
            .error "panic: instruction pointer out of range"
          else
            let environment :=
              match call_frame.closure with
              | .closure _ _ environment => environment
              | _ => []
            match innerLoop { vm with pure := true }
                (call_frame.bytecode.drop call_frame.instruction_pointer)
                call_frame.instruction_pointer call_frame.frame_index
                environment 0 with
            | .error e => .error e
            | .ok vm => runLoop fuel vm

/-- src/src/vm.rs lines 99-107: `Vm::run` — push the synthetic top-level
frame, whose placeholder closure `Rc::new(Value::Bool(false))` is itself a
fresh allocation, and enter the loop. -/
def run (fuel : Nat) (vm : Vm) (bytecode : List Instruction) :
    Except String FinalValue :=
  let initial_frame : CallFrame :=
    { bytecode, closure := .bool vm.next_id false, instruction_pointer := 0,
      frame_index := 0 }
  runLoop fuel { vm with call_frames := vm.call_frames ++ [initial_frame], next_id := vm.next_id + 1 }

/-- src/src/vm.rs lines 57-66: `Vm::interpret` minus parsing — compile the
term, append `Return(0)`, run. -/
def interpretFuel (fuel : Nat) (t : Term) : Except String FinalValue := do
  let (c, vm) ← vmCompile fuel t Vm.new
  run fuel vm (c.bytecode ++ [Instruction.return_ 0])

end Rvm

/-! ## Helper lemmas -/

namespace Rvm

lemma popOperands_concat (rest : List HValue) (l r : HValue) :
    popOperands (rest ++ [l, r]) = .ok (l, r, rest) := by
  have h2 : rest ++ [l, r] = (rest ++ [l]) ++ [r] := by simp
  rw [h2]
  unfold popOperands
  simp [List.getLast?_concat, List.dropLast_concat]

/-- The size of the closure-free fragment of a value (tuples only). -/
def valueSize : Value → Nat
  | .tuple a b => valueSize a + valueSize b + 1
  | _ => 1

lemma valueEq_false_of_kind_ne (l r : Value) (h : l.kind ≠ r.kind) :
    valueEq l r = false := by
  cases l <;> cases r <;> first
    | rfl
    | exact absurd rfl h

lemma valueEq_closure_self (f : Function) (env : List (String × Value)) :
    valueEq (.closure f env) (.closure f env) = false := rfl

lemma valueEq_eq_true_iff_aux :
    ∀ (n : Nat) (l r : Value), valueSize l ≤ n →
      closureFree l = true → closureFree r = true →
      (valueEq l r = true ↔ l = r) := by
  intro n
  induction n with
  | zero =>
      intro l r h
      exfalso
      cases l <;> simp [valueSize] at h
  | succ n ih =>
      intro l r hsize hl hr
      cases l with
      | bool b => cases r <;> simp [valueEq, closureFree]
      | integer i => cases r <;> simp [valueEq, closureFree]
      | string s => cases r <;> simp [valueEq, closureFree]
      | tuple a b =>
          cases r with
          | tuple c d =>
              simp only [valueSize] at hsize
              simp only [closureFree, Bool.and_eq_true] at hl hr
              have iha := ih a c (by omega) hl.1 hr.1
              have ihb := ih b d (by omega) hl.2 hr.2
              simp only [valueEq, Bool.and_eq_true, iha, ihb,
                Value.tuple.injEq]
          | bool _ => simp [valueEq]
          | integer _ => simp [valueEq]
          | string _ => simp [valueEq]
          | closure _ _ => simp [closureFree] at hr
      | closure f env => simp [closureFree] at hl

lemma valueEq_eq_true_iff (l r : Value) (hl : closureFree l = true)
    (hr : closureFree r = true) : valueEq l r = true ↔ l = r :=
  valueEq_eq_true_iff_aux (valueSize l) l r le_rfl hl hr

lemma findIdx?_go_spec {α : Type} (p : α → Bool) :
    ∀ (l : List α) (i j : Nat), List.findIdx? p l i = some j →
      i ≤ j ∧ j - i < l.length ∧
      (∃ w, l[j - i]? = some w ∧ p w = true) ∧
      (∀ k, k < j - i → ∀ w, l[k]? = some w → p w = false) := by
  intro l
  induction l with
  | nil => intro i j h; simp [List.findIdx?] at h
  | cons a l ih =>
      intro i j h
      rw [List.findIdx?_cons] at h
      by_cases hpa : p a = true
      · rw [if_pos hpa] at h
        cases h
        refine ⟨le_rfl, by simp, ⟨a, by simp, hpa⟩, ?_⟩
        intro k hk
        omega
      · rw [if_neg hpa] at h
        obtain ⟨hij, hlen, ⟨w, hw, hpw⟩, hfirst⟩ := ih (i + 1) j h
        refine ⟨by omega, by simp; omega, ⟨w, ?_, hpw⟩, ?_⟩
        · have hji : j - i = (j - (i + 1)) + 1 := by omega
          rw [hji]
          simpa using hw
        · intro k hk w' hw'
          match k, hw' with
          | 0, hw' =>
              simp at hw'
              subst hw'
              simpa using hpa
          | k' + 1, hw' =>
              refine hfirst k' (by omega) w' ?_
              simpa using hw'

lemma findIdx?_spec {α : Type} (p : α → Bool) (l : List α) (j : Nat)
    (h : l.findIdx? p = some j) :
    (∃ w, l[j]? = some w ∧ p w = true) ∧ j < l.length ∧
    (∀ k, k < j → ∀ w, l[k]? = some w → p w = false) := by
  obtain ⟨-, hlen, hw, hfirst⟩ := findIdx?_go_spec p l 0 j h
  simpa using ⟨hw, hlen, hfirst⟩

lemma step_eq_concat (vm : Vm) (l r : HValue) (rest : List HValue)
    (ip fi : Nat) (env : List (String × HValue))
    (h : vm.stack = rest ++ [l, r]) :
    step vm .eq ip fi env =
      .ok ({ vm with stack := rest ++ [HValue.bool vm.next_id (rcEq l r)], next_id := vm.next_id + 1 }, .next) := by
  unfold step
  rw [h, popOperands_concat]
  rfl

lemma step_neq_concat (vm : Vm) (l r : HValue) (rest : List HValue)
    (ip fi : Nat) (env : List (String × HValue))
    (h : vm.stack = rest ++ [l, r]) :
    step vm .neq ip fi env =
      .ok ({ vm with stack := rest ++ [HValue.bool vm.next_id (rcNe l r)], next_id := vm.next_id + 1 }, .next) := by
  unfold step
  rw [h, popOperands_concat]
  rfl

/-! ## The semantics of `==` and `!=` on `Rc<Value>` handles -/

lemma rcNe_eq_not_rcEq (l r : HValue) : rcNe l r = !(rcEq l r) := by
  unfold rcNe rcEq
  cases l.id == r.id <;> simp

lemma valueRcEq_false_of_kind_ne (l r : HValue) (h : l.kind ≠ r.kind) :
    valueRcEq l r = false := by
  cases l <;> cases r <;> first
    | rfl
    | exact absurd rfl h

lemma rcEq_of_id_eq (l r : HValue) (h : l.id = r.id) : rcEq l r = true := by
  simp [rcEq, h]

lemma rcEq_kind_ne (l r : HValue) (h : l.kind ≠ r.kind) :
    rcEq l r = (l.id == r.id) := by
  simp [rcEq, valueRcEq_false_of_kind_ne l r h]

lemma valueRcEq_false_of_closure (l r : HValue)
    (h : l.kind = .closure ∨ r.kind = .closure) : valueRcEq l r = false := by
  cases l <;> cases r <;> first
    | rfl
    | (exfalso; rcases h with h | h <;> simp [HValue.kind] at h)

lemma rcEq_closure (l r : HValue)
    (h : l.kind = .closure ∨ r.kind = .closure) :
    rcEq l r = (l.id == r.id) := by
  simp [rcEq, valueRcEq_false_of_closure l r h]

/-- The size of the closure-free fragment of a handle (tuples only). -/
def hSize : HValue → Nat
  | .tuple _ a b => hSize a + hSize b + 1
  | _ => 1

lemma id_mem_idsOf (v : HValue) : v.id ∈ idsOf v := by
  cases v <;> simp [idsOf, HValue.id]

lemma rcEq_strip_iff_aux :
    ∀ (n : Nat) (l r : HValue), hSize l ≤ n →
      hClosureFree l = true → hClosureFree r = true →
      (∀ i ∈ idsOf l, i ∉ idsOf r) →
      (rcEq l r = true ↔ strip l = strip r) := by
  intro n
  induction n with
  | zero =>
      intro l r h
      exfalso
      cases l <;> simp [hSize] at h
  | succ n ih =>
      intro l r hsize hl hr hdisj
      have hid : l.id ≠ r.id := by
        intro hcontra
        exact hdisj l.id (id_mem_idsOf l) (hcontra ▸ id_mem_idsOf r)
      cases l with
      | bool il b =>
          cases r with
          | bool ir b2 =>
              simp only [HValue.id] at hid
              simp [rcEq, valueRcEq, strip, HValue.id, hid]
          | integer _ _ =>
              simp only [HValue.id] at hid
              simp [rcEq, valueRcEq, strip, HValue.id, hid]
          | string _ _ =>
              simp only [HValue.id] at hid
              simp [rcEq, valueRcEq, strip, HValue.id, hid]
          | tuple _ _ _ =>
              simp only [HValue.id] at hid
              simp [rcEq, valueRcEq, strip, HValue.id, hid]
          | closure _ _ _ => simp [hClosureFree] at hr
      | integer il i =>
          cases r with
          | integer ir i2 =>
              simp only [HValue.id] at hid
              simp [rcEq, valueRcEq, strip, HValue.id, hid]
          | bool _ _ =>
              simp only [HValue.id] at hid
              simp [rcEq, valueRcEq, strip, HValue.id, hid]
          | string _ _ =>
              simp only [HValue.id] at hid
              simp [rcEq, valueRcEq, strip, HValue.id, hid]
          | tuple _ _ _ =>
              simp only [HValue.id] at hid
              simp [rcEq, valueRcEq, strip, HValue.id, hid]
          | closure _ _ _ => simp [hClosureFree] at hr
      | string il s =>
          cases r with
          | string ir s2 =>
              simp only [HValue.id] at hid
              simp [rcEq, valueRcEq, strip, HValue.id, hid]
          | bool _ _ =>
              simp only [HValue.id] at hid
              simp [rcEq, valueRcEq, strip, HValue.id, hid]
          | integer _ _ =>
              simp only [HValue.id] at hid
              simp [rcEq, valueRcEq, strip, HValue.id, hid]
          | tuple _ _ _ =>
              simp only [HValue.id] at hid
              simp [rcEq, valueRcEq, strip, HValue.id, hid]
          | closure _ _ _ => simp [hClosureFree] at hr
      | tuple il a b =>
          cases r with
          | tuple ir c d =>
              simp only [hSize] at hsize
              simp only [hClosureFree, Bool.and_eq_true] at hl hr
              have hdisja : ∀ i ∈ idsOf a, i ∉ idsOf c := by
                intro i hia hic
                exact hdisj i (by simp [idsOf, hia]) (by simp [idsOf, hic])
              have hdisjb : ∀ i ∈ idsOf b, i ∉ idsOf d := by
                intro i hib hid2
                exact hdisj i (by simp [idsOf, hib]) (by simp [idsOf, hid2])
              have iha := ih a c (by omega) hl.1 hr.1 hdisja
              have ihb := ih b d (by omega) hl.2 hr.2 hdisjb
              simp only [HValue.id] at hid
              have hgoal : rcEq (HValue.tuple il a b) (HValue.tuple ir c d) =
                  (rcEq a c && rcEq b d) := by
                simp [rcEq, valueRcEq, HValue.id, hid]
              rw [hgoal]
              simp only [strip, Value.tuple.injEq, Bool.and_eq_true]
              rw [iha, ihb]
          | bool _ _ =>
              simp only [HValue.id] at hid
              simp [rcEq, valueRcEq, strip, HValue.id, hid]
          | integer _ _ =>
              simp only [HValue.id] at hid
              simp [rcEq, valueRcEq, strip, HValue.id, hid]
          | string _ _ =>
              simp only [HValue.id] at hid
              simp [rcEq, valueRcEq, strip, HValue.id, hid]
          | closure _ _ _ => simp [hClosureFree] at hr
      | closure _ _ _ => simp [hClosureFree] at hl

lemma rcEq_strip_iff (l r : HValue) (hl : hClosureFree l = true)
    (hr : hClosureFree r = true) (hdisj : ∀ i ∈ idsOf l, i ∉ idsOf r) :
    rcEq l r = true ↔ strip l = strip r :=
  rcEq_strip_iff_aux (hSize l) l r le_rfl hl hr hdisj

/-! ## Claim C5 and C10: equality instruction semantics -/

/-- C5 as amended: with two operands on the stack, `Eq` pushes
`Bool(rcEq l r)` and `Neq` pushes `Bool(rcNe l r)` in a fresh allocation,
never raising an error; operands of different kinds compare equal only by
pointer identity (`Rc::ptr_eq`), so in distinct allocations `Eq` gives
`false` and `Neq` gives `true`; two handles to the same allocation always
compare equal; and on closure-free operands sharing no allocation the
comparison is exactly structural equality of the underlying values. -/
theorem eq_neq_kind_and_identity (vm : Vm) (l r : HValue)
    (rest : List HValue) (ip fi : Nat) (env : List (String × HValue))
    (h : vm.stack = rest ++ [l, r]) :
    step vm .eq ip fi env =
      .ok ({ vm with stack := rest ++ [HValue.bool vm.next_id (rcEq l r)], next_id := vm.next_id + 1 }, .next) ∧
    step vm .neq ip fi env =
      .ok ({ vm with stack := rest ++ [HValue.bool vm.next_id (rcNe l r)], next_id := vm.next_id + 1 }, .next) ∧
    (l.kind ≠ r.kind → rcEq l r = (l.id == r.id)) ∧
    (l.id = r.id → rcEq l r = true) ∧
    (hClosureFree l = true → hClosureFree r = true →
      (∀ i ∈ idsOf l, i ∉ idsOf r) →
      (rcEq l r = true ↔ strip l = strip r)) :=
  ⟨step_eq_concat vm l r rest ip fi env h,
   step_neq_concat vm l r rest ip fi env h,
   rcEq_kind_ne l r,
   rcEq_of_id_eq l r,
   rcEq_strip_iff l r⟩

/-- Witness for `eq_neq_kind_and_identity` at the cross-kind pair
`Integer(1)` (allocation 5), `Bool(true)` (allocation 6). -/
theorem eq_neq_kind_and_identity_witness :
    step { Vm.new with stack := [HValue.integer 5 1, HValue.bool 6 true] }
        .eq 1 0 [] =
      .ok ({ Vm.new with stack := [HValue.bool 0 false], next_id := 1 }, .next) ∧
    rcEq (HValue.integer 5 1) (HValue.bool 6 true) = false := by
  have h := eq_neq_kind_and_identity
    { Vm.new with stack := [HValue.integer 5 1, HValue.bool 6 true] }
    (HValue.integer 5 1) (HValue.bool 6 true) [] 1 0 [] rfl
  refine ⟨h.1, ?_⟩
  rw [h.2.2.1 (by decide)]
  decide

/-- Counterexample to C5 as stated: in `let f = fn () => 1; f != f` the two
operands of `!=` are handles to the very same closure allocation (both
`GlobalGet`s clone the one global `Rc`).  Structural equality on closures
is `false` (`PartialEq`'s catch-all arm), so the claim predicts `Neq`
pushes `Bool(true)`; the `Rc` pointer-equality short-circuit makes the VM
push `Bool(false)` instead. -/
theorem same_closure_neq_counterexample :
    interpretFuel 30 (.letE "f" (.function [] (.int 1))
        (.binary .neq (.var "f") (.var "f"))) = .ok (.bool false) ∧
    interpretFuel 30 (.letE "f" (.function [] (.int 1))
        (.binary .neq (.var "f") (.var "f"))) ≠ .ok (.bool true) := by
  constructor
  · rfl
  · intro hcontra
    rw [show interpretFuel 30 (.letE "f" (.function [] (.int 1))
        (.binary .neq (.var "f") (.var "f"))) = .ok (.bool false) from rfl]
      at hcontra
    simp at hcontra

/-- C10 as amended: for every pair of operands `Neq` pushes exactly the
negated boolean that `Eq` pushes (`rcNe` is pointwise `!rcEq`); and a
closure comparison is pure pointer identity — `false` against any operand
in a different allocation, `true` against a handle to the same one. -/
theorem neq_negates_eq (vm : Vm) (l r : HValue) (rest : List HValue)
    (ip fi : Nat) (env : List (String × HValue))
    (h : vm.stack = rest ++ [l, r]) :
    step vm .neq ip fi env =
      .ok ({ vm with stack := rest ++ [HValue.bool vm.next_id (!(rcEq l r))], next_id := vm.next_id + 1 }, .next) ∧
    step vm .eq ip fi env =
      .ok ({ vm with stack := rest ++ [HValue.bool vm.next_id (rcEq l r)], next_id := vm.next_id + 1 }, .next) ∧
    (l.kind = .closure ∨ r.kind = .closure → rcEq l r = (l.id == r.id)) := by
  refine ⟨?_, step_eq_concat vm l r rest ip fi env h, rcEq_closure l r⟩
  rw [← rcNe_eq_not_rcEq]
  exact step_neq_concat vm l r rest ip fi env h

/-- Witness for `neq_negates_eq`: two handles to the same closure
allocation (id 3) compare `true` under `Eq`, so `Neq` pushes `false`. -/
theorem neq_negates_eq_witness :
    step { Vm.new with stack :=
      [HValue.closure 3 { arity := 0, bytecode := [], captured := [],
                          index := 0, locals := [] } [],
       HValue.closure 3 { arity := 0, bytecode := [], captured := [],
                          index := 0, locals := [] } []] } .neq 1 0 [] =
      .ok ({ Vm.new with stack := [HValue.bool 0 false], next_id := 1 }, .next) ∧
    rcEq
      (HValue.closure 3 { arity := 0, bytecode := [], captured := [],
                          index := 0, locals := [] } [])
      (HValue.closure 3 { arity := 0, bytecode := [], captured := [],
                          index := 0, locals := [] } []) = true := by
  have h := neq_negates_eq
    { Vm.new with stack :=
      [HValue.closure 3 { arity := 0, bytecode := [], captured := [],
                          index := 0, locals := [] } [],
       HValue.closure 3 { arity := 0, bytecode := [], captured := [],
                          index := 0, locals := [] } []] }
    (HValue.closure 3 { arity := 0, bytecode := [], captured := [],
                        index := 0, locals := [] } [])
    (HValue.closure 3 { arity := 0, bytecode := [], captured := [],
                        index := 0, locals := [] } [])
    [] 1 0 [] rfl
  refine ⟨?_, ?_⟩
  · have h1 := h.1
    rw [show rcEq
      (HValue.closure 3 { arity := 0, bytecode := [], captured := [],
                          index := 0, locals := [] } [])
      (HValue.closure 3 { arity := 0, bytecode := [], captured := [],
                          index := 0, locals := [] } []) = true from rfl] at h1
    exact h1
  · rw [h.2.2 (Or.inl rfl)]
    decide

/-- Counterexample to C10 as stated: the claim's particular clause says a
closure always compares `Bool(false)` under `Eq`, even against the very
same closure value; but `let f = fn () => 1; f == f` — two handles to one
closure allocation — evaluates to `Bool(true)` through the `Rc`
pointer-equality short-circuit. -/
theorem same_closure_eq_counterexample :
    interpretFuel 30 (.letE "f" (.function [] (.int 1))
        (.binary .eq (.var "f") (.var "f"))) = .ok (.bool true) ∧
    interpretFuel 30 (.letE "f" (.function [] (.int 1))
        (.binary .eq (.var "f") (.var "f"))) ≠ .ok (.bool false) := by
  constructor
  · rfl
  · intro hcontra
    rw [show interpretFuel 30 (.letE "f" (.function [] (.int 1))
        (.binary .eq (.var "f") (.var "f"))) = .ok (.bool true) from rfl]
      at hcontra
    simp at hcontra

/-! ## Claim C4: division and remainder -/

/-- Counterexample to C4 as stated: at `a = i32::MIN`, `b = -1` the divisor
is non-zero, yet `Div` raises the divide-by-zero error, because Rust's
`checked_div` also fails on the overflowing division `i32::MIN / -1`
(src/src/vm.rs lines 202-204). -/
theorem div_overflow_counterexample :
    (-1 : Int) ≠ 0 ∧
    step { Vm.new with stack :=
        [HValue.integer 0 (-2147483648), HValue.integer 1 (-1)] } .div 1 0 [] =
      .error "Attempted to divide by zero" := by
  constructor
  · decide
  · rfl

/-- C4 as amended: with `Int(a)`, `Int(b)` on the stack, `Div` (resp. `Rem`)
errors exactly when `b = 0` or `(a, b) = (i32::MIN, -1)`, with the two
distinct messages, and otherwise pushes the quotient (resp. remainder) of
division truncating toward zero, in a fresh allocation. -/
theorem div_rem_error_iff (vm : Vm) (a b : Int) (ia ib : Nat)
    (rest : List HValue) (ip fi : Nat) (env : List (String × HValue))
    (h : vm.stack = rest ++ [HValue.integer ia a, HValue.integer ib b])
    (ha1 : -2147483648 ≤ a) (ha2 : a ≤ 2147483647)
    (hb1 : -2147483648 ≤ b) (hb2 : b ≤ 2147483647) :
    (b = 0 ∨ (a = -2147483648 ∧ b = -1) →
      step vm .div ip fi env = .error "Attempted to divide by zero" ∧
      step vm .rem ip fi env = .error "Attempted to take remainder by zero") ∧
    (¬(b = 0 ∨ (a = -2147483648 ∧ b = -1)) →
      step vm .div ip fi env =
        .ok ({ vm with stack := rest ++ [HValue.integer vm.next_id (Int.tdiv a b)], next_id := vm.next_id + 1 },
             .next) ∧
      step vm .rem ip fi env =
        .ok ({ vm with stack := rest ++ [HValue.integer vm.next_id (Int.tmod a b)], next_id := vm.next_id + 1 },
             .next)) ∧
    ("Attempted to divide by zero" ≠ "Attempted to take remainder by zero") := by
  refine ⟨?_, ?_, by decide⟩
  · intro hcond
    constructor
    · unfold step
      rw [h, popOperands_concat]
      simp [bind, Except.bind, checkedDiv, hcond]
    · unfold step
      rw [h, popOperands_concat]
      simp [bind, Except.bind, checkedRem, hcond]
  · intro hcond
    constructor
    · unfold step
      rw [h, popOperands_concat]
      simp [bind, Except.bind, checkedDiv, hcond]
    · unfold step
      rw [h, popOperands_concat]
      simp [bind, Except.bind, checkedRem, hcond]

/-- Witness for `div_rem_error_iff` at `a = 5`, `b = 2`
(`5 / 2 = 2`, `5 % 2 = 1`: truncation toward zero). -/
theorem div_rem_error_iff_witness :
    step { Vm.new with stack := [HValue.integer 7 5, HValue.integer 8 2] }
        .div 1 0 [] =
      .ok ({ Vm.new with stack := [HValue.integer 0 2], next_id := 1 }, .next) ∧
    step { Vm.new with stack := [HValue.integer 7 5, HValue.integer 8 2] }
        .rem 1 0 [] =
      .ok ({ Vm.new with stack := [HValue.integer 0 1], next_id := 1 }, .next) := by
  have h := (div_rem_error_iff
    { Vm.new with stack := [HValue.integer 7 5, HValue.integer 8 2] }
    5 2 7 8 [] 1 0 [] rfl (by decide) (by decide) (by decide) (by decide)).2.1
    (by decide)
  exact ⟨h.1, h.2⟩

/-! ## Claim C9: LocalGet bounds checking -/

/-- C9: `LocalGet(slot, ident)` never reads the operand stack out of
bounds: when `frame_index + slot` is past the top it produces the lookup
error naming the identifier, and otherwise it pushes a copy of the value at
that index (an `Rc::clone`, keeping its allocation id), leaving the rest of
the stack unchanged. -/
theorem localget_bounds (vm : Vm) (slot identIdx ip fi : Nat)
    (env : List (String × HValue)) (ident : String)
    (hident : vm.identifiers[identIdx]? = some ident) :
    (vm.stack.length ≤ fi + slot →
      step vm (.localGet slot identIdx) ip fi env =
        .error s!"Variable {ident} not found.") ∧
    (∀ hlt : fi + slot < vm.stack.length,
      step vm (.localGet slot identIdx) ip fi env =
        .ok ({ vm with stack := vm.stack ++ [vm.stack.get ⟨fi + slot, hlt⟩] },
             .next)) := by
  constructor
  · intro hle
    simp only [step]
    rw [if_pos hle, hident]
  · intro hlt
    simp only [step]
    rw [if_neg (by omega)]
    rw [List.getElem?_eq_getElem hlt]
    rfl

/-- Witness for `localget_bounds`: out-of-range slot errors with the
variable name, in-range slot pushes the copied value. -/
theorem localget_bounds_witness :
    step { Vm.new with identifiers := ["x"], stack := [HValue.integer 4 7] }
        (.localGet 5 0) 1 0 [] = .error "Variable x not found." ∧
    step { Vm.new with identifiers := ["x"], stack := [HValue.integer 4 7] }
        (.localGet 0 0) 1 0 [] =
      .ok ({ Vm.new with identifiers := ["x"], stack := [HValue.integer 4 7, HValue.integer 4 7] }, .next) := by
  have h1 := (localget_bounds
    { Vm.new with identifiers := ["x"], stack := [HValue.integer 4 7] }
    5 0 1 0 [] "x" rfl).1 (by decide)
  have h2 := (localget_bounds
    { Vm.new with identifiers := ["x"], stack := [HValue.integer 4 7] }
    0 0 1 0 [] "x" rfl).2 (by decide)
  exact ⟨h1, h2⟩

/-! ## Claim C3: global redefinition -/

/-- The shadowing program `let x = 1; let x = 2; x`. -/
def shadowProgram : Term :=
  .letE "x" (.int 1) (.letE "x" (.int 2) (.var "x"))

/-- Counterexample to C3 as stated: after two `GlobalSet`s binding `x`,
`GlobalGet` pushes the value of the EARLIER binding, because the lookup at
src/src/vm.rs lines 346-350 runs `iter().find(..)`, which scans the globals
list from oldest to newest.  `let x = 1; let x = 2; x` evaluates to
`Integer(1)`, not `Integer(2)` as the claim predicts. -/
theorem global_redefinition_counterexample :
    interpretFuel 10 shadowProgram = .ok (.integer 1) ∧
    interpretFuel 10 shadowProgram ≠ .ok (.integer 2) := by
  constructor
  · rfl
  · intro hcontra
    rw [show interpretFuel 10 shadowProgram = .ok (.integer 1) from rfl]
      at hcontra
    simp at hcontra

/-- C3 as amended: `GlobalSet` appends a `(name, value)` pair to the globals
list, and `GlobalGet` (when the identifier is absent from the frame's
captured environment) scans the globals from OLDEST to newest, so with two
bindings of the same name it pushes the value of the earlier one
(first-write-wins). -/
theorem global_lookup_first_binding_wins (vm : Vm) (ip fi : Nat)
    (env : List (String × HValue)) (idx : Nat) (ident : String)
    (v : HValue) (rest : List HValue)
    (hident : vm.identifiers[idx]? = some ident)
    (hstack : vm.stack = rest ++ [v]) :
    step vm (.globalSet idx) ip fi env =
      .ok ({ vm with stack := rest, globals := vm.globals ++ [(ident, v)] },
           .next) ∧
    (∀ (pre mid post : List (String × HValue)) (v1 v2 : HValue),
      vm.globals = pre ++ [(ident, v1)] ++ mid ++ [(ident, v2)] ++ post →
      pre.find? (fun g => g.fst == ident) = none →
      env.find? (fun p => p.fst == ident) = none →
      step vm (.globalGet idx) ip fi env =
        .ok ({ vm with stack := vm.stack ++ [v1] }, .next)) := by
  constructor
  · simp only [step]
    rw [hident, hstack]
    simp [List.getLast?_concat, List.dropLast_concat]
  · intro pre mid post v1 v2 hglobals hpre henv
    simp only [step]
    rw [hident]
    simp [henv, hglobals, Option.orElse, List.find?_append, hpre]

/-- Witness for `global_lookup_first_binding_wins` on a concrete state with
two bindings of `x`. -/
theorem global_lookup_first_binding_wins_witness :
    step { Vm.new with identifiers := ["x"], stack := [HValue.integer 5 9] }
        (.globalSet 0) 1 0 [] =
      .ok ({ Vm.new with identifiers := ["x"], stack := [], globals := [("x", HValue.integer 5 9)] }, .next) ∧
    step { Vm.new with identifiers := ["x"], stack := [HValue.integer 5 9], globals := [("x", HValue.integer 6 1), ("x", HValue.integer 7 2)] }
        (.globalGet 0) 1 0 [] =
      .ok ({ Vm.new with identifiers := ["x"], stack := [HValue.integer 5 9, HValue.integer 6 1], globals := [("x", HValue.integer 6 1), ("x", HValue.integer 7 2)] }, .next) := by
  have h1 := (global_lookup_first_binding_wins
    { Vm.new with identifiers := ["x"], stack := [HValue.integer 5 9] }
    1 0 [] 0 "x" (HValue.integer 5 9) [] rfl rfl).1
  have h2 := (global_lookup_first_binding_wins
    { Vm.new with identifiers := ["x"], stack := [HValue.integer 5 9], globals := [("x", HValue.integer 6 1), ("x", HValue.integer 7 2)] }
    1 0 [] 0 "x" (HValue.integer 5 9) [] rfl rfl).2
    [] [] [] (HValue.integer 6 1) (HValue.integer 7 2) rfl rfl rfl
  exact ⟨h1, h2⟩

/-! ## Claim C7: constant pool -/

/-- Counterexample to C7 as stated: with the pool already holding 65,535
entries, inserting a value that is ALREADY PRESENT still fails, because the
capacity check at src/src/vm.rs line 69 runs before the dedup probe; the
claim's "the existing index is returned and the pool is unchanged" does not
hold at the cap. -/
theorem constant_dedup_at_capacity_counterexample :
    Value.integer 0 ∈ List.replicate 65535 (Value.integer 0) ∧
    valueEq (Value.integer 0) (Value.integer 0) = true ∧
    create_constant
        { Vm.new with constants := List.replicate 65535 (Value.integer 0) }
        (Value.integer 0) =
      .error "Cannot create more than 65535 constants." := by
  refine ⟨?_, rfl, ?_⟩
  · rw [List.mem_replicate]
    exact ⟨by decide, rfl⟩
  · have hlen : ({ Vm.new with constants := List.replicate 65535 (Value.integer 0) } : Vm).constants.length ≥ 65535 := by
      show (List.replicate 65535 (Value.integer 0)).length ≥ 65535
      rw [List.length_replicate]
    unfold create_constant
    rw [if_pos hlen]

/-- C7 as amended: `create_constant` fails whenever the pool already holds
65,535 entries (even for a duplicate value); below the cap it deduplicates —
if an equal value exists, the first matching index is returned and the pool
is unchanged, otherwise the value is appended; and a successful insertion
never grows the pool beyond 65,535 entries. -/
theorem create_constant_characterization (vm : Vm) (v : Value) :
    (vm.constants.length ≥ 65535 →
      create_constant vm v = .error "Cannot create more than 65535 constants.") ∧
    (vm.constants.length < 65535 →
      (∀ j, vm.constants.findIdx? (fun w => valueEq w v) = some j →
        create_constant vm v = .ok (j, vm) ∧
        j < vm.constants.length ∧
        (∃ w, vm.constants[j]? = some w ∧ valueEq w v = true) ∧
        (∀ k, k < j → ∀ w, vm.constants[k]? = some w → valueEq w v = false)) ∧
      (vm.constants.findIdx? (fun w => valueEq w v) = none →
        create_constant vm v =
          .ok (vm.constants.length,
               { vm with constants := vm.constants ++ [v] }))) ∧
    (∀ j vm', create_constant vm v = .ok (j, vm') →
      vm'.constants.length ≤ 65535) := by
  refine ⟨?_, fun hlt => ⟨?_, ?_⟩, ?_⟩
  · intro hge
    simp [create_constant, hge]
  · intro j hfind
    obtain ⟨⟨w, hw, hpw⟩, hjlen, hfirst⟩ := findIdx?_spec _ _ _ hfind
    refine ⟨?_, hjlen, ⟨w, hw, hpw⟩, hfirst⟩
    simp [create_constant, hfind, Nat.not_le.mpr hlt]
  · intro hnone
    simp [create_constant, hnone, Nat.not_le.mpr hlt]
  · intro j vm' hok
    unfold create_constant at hok
    by_cases hge : vm.constants.length ≥ 65535
    · rw [if_pos hge] at hok
      exact absurd hok (by simp)
    · rw [if_neg hge] at hok
      cases hfind : vm.constants.findIdx? (fun w => valueEq w v) with
      | some i =>
          rw [hfind] at hok
          cases hok
          omega
      | none =>
          rw [hfind] at hok
          cases hok
          simp
          omega

/-! ## Claim C2: memoization soundness -/

/-- `let f = fn(n) => { let h = fn() => 99; h() + n }; f(1)` — a pure
unary-int function whose body makes a nested zero-arity call. -/
def memoNestedOnce : Term :=
  .letE "f"
    (.function ["n"]
      (.letE "h" (.function [] (.int 99))
        (.binary .add (.call (.var "h") []) (.var "n"))))
    (.call (.var "f") [.int 1])

/-- The same program calling `f(1)` twice and adding the results:
`let f = fn(n) => { let h = fn() => 99; h() + n }; f(1) + f(1)`. -/
def memoNestedTwice : Term :=
  .letE "f"
    (.function ["n"]
      (.letE "h" (.function [] (.int 99))
        (.binary .add (.call (.var "h") []) (.var "n"))))
    (.binary .add (.call (.var "f") [.int 1]) (.call (.var "f") [.int 1]))

/-- C2 is violated by the code: calling `f(1)` once yields `Integer(100)`,
but `f(1) + f(1)` yields `Integer(199)`, not `200` — the entry the `Return`
instruction records under `current_execution` with the purity flag still
true maps `(f, 1)` to `99`, the return value of the NESTED zero-arity call
`h()`, because the zero-arity `Call` leaves `current_execution` untouched
(src/src/vm.rs line 430) and the first `Return` to execute consumes it
(lines 532-538).  The later `f(1)` therefore returns the polluted cached
value `99` instead of the `100` that `f` actually returns. -/
theorem memoization_pollution_by_nested_call :
    interpretFuel 30 memoNestedOnce = .ok (.integer 100) ∧
    interpretFuel 30 memoNestedTwice = .ok (.integer 199) ∧
    interpretFuel 30 memoNestedTwice ≠ .ok (.integer 200) := by
  refine ⟨rfl, rfl, ?_⟩
  intro hcontra
  rw [show interpretFuel 30 memoNestedTwice = .ok (.integer 199) from rfl]
    at hcontra
  simp at hcontra

/-! ## Spec-side notions for the compiler claims (C1, C6) -/

/-- Is this opcode a `TailCall`? -/
def isTailCallInstr : Instruction → Bool
  | .tailCall _ => true
  | _ => false

/-- Is this opcode a plain `Call`? -/
def isCallInstr : Instruction → Bool
  | .call _ => true
  | _ => false

/-- Is this opcode an `If` or a `Jump` (the two skip-carrying opcodes)? -/
def isJumpLike : Instruction → Bool
  | .if_ _ => true
  | .jump _ => true
  | _ => false

/-- Number of `TailCall` opcodes in an instruction list. -/
def tailCallsIn (l : List Instruction) : Nat := l.countP isTailCallInstr

/-- Number of plain `Call` opcodes in an instruction list. -/
def plainCallsIn (l : List Instruction) : Nat := l.countP isCallInstr

/-- Total number of `TailCall` opcodes emitted so far: those in the
compiler's instruction buffer plus those in every recorded function body. -/
def tailCallsTotal (c : Compiler) (vm : Vm) : Nat :=
  tailCallsIn c.bytecode + (vm.functions.map fun f => tailCallsIn f.bytecode).sum

/-- Total number of plain `Call` opcodes emitted so far. -/
def plainCallsTotal (c : Compiler) (vm : Vm) : Nat :=
  plainCallsIn c.bytecode + (vm.functions.map fun f => plainCallsIn f.bytecode).sum

mutual

/-- The claim's own characterization of tail positions, written
independently of the compiler: how many `Call` terms of `t` sit in `Tail`
position and how many sit in any other position, when `t` itself is
compiled at position `p`.  The position is `Tail` at the root of a function
body; it propagates to both branches of an `if` and to the `next` of a
`let`; it is `Unknown` inside operands, call callees and arguments, tuple
components, projections, `print` arguments and conditions.  The pair is
(tail calls, non-tail calls); fuel mirrors `compileF` exactly. -/
def specCountsF : Nat → Term → CallPosition → Nat × Nat
  | 0, _, _ => (0, 0)
  | fuel + 1, t, p =>
    match t with
    | .int _ => (0, 0)
    | .bool _ => (0, 0)
    | .str _ => (0, 0)
    | .var _ => (0, 0)
    | .error _ => (0, 0)
    | .binary _ lhs rhs =>
        specCountsF fuel lhs .unknown + specCountsF fuel rhs .unknown
    | .tuple a b =>
        specCountsF fuel a .unknown + specCountsF fuel b .unknown
    | .first t => specCountsF fuel t .unknown
    | .second t => specCountsF fuel t .unknown
    | .print t => specCountsF fuel t .unknown
    | .letE _ value next =>
        specCountsF fuel value .unknown + specCountsF fuel next p
    | .ifE condition then_ otherwise =>
        specCountsF fuel condition .unknown + specCountsF fuel then_ p +
          specCountsF fuel otherwise p
    | .function _ body => specCountsF fuel body .tail
    | .call callee args =>
        (if p = .tail then (1, 0) else (0, 1)) +
          specCountsF fuel callee .unknown + specCountsArgsF fuel args

/-- Call counts of a list of call arguments (all in `Unknown` position). -/
def specCountsArgsF : Nat → List Term → Nat × Nat
  | 0, _ => (0, 0)
  | _ + 1, [] => (0, 0)
  | fuel + 1, a :: rest =>
      specCountsF fuel a .unknown + specCountsArgsF fuel rest

end

/-- Every `If(skip)` and `Jump(skip)` at a position `i ≥ base` of the
instruction list has a strictly positive skip and a target `i + skip` that
stays inside the list. -/
def RegionFine (base : Nat) (l : List Instruction) : Prop :=
  ∀ i s, base ≤ i →
    (l[i]? = some (.if_ s) ∨ l[i]? = some (.jump s)) →
    0 < s ∧ i + s < l.length

/-- The bookkeeping a successful compiler call performs on its instruction
buffer and function table: the buffer grows by appending, the function
table grows by appending bodies whose jumps are all in range, jumps emitted
into the new region of the buffer are in range, and the numbers of
`TailCall`/`Call` opcodes emitted (buffer and recorded bodies together)
are exactly `k`. -/
def Advances (c c' : Compiler) (vm vm' : Vm) (k : Nat × Nat) : Prop :=
  (∃ s, c'.bytecode = c.bytecode ++ s) ∧
  (∃ fs, vm'.functions = vm.functions ++ fs ∧
    ∀ f ∈ fs, RegionFine 0 f.bytecode) ∧
  RegionFine c.bytecode.length c'.bytecode ∧
  tailCallsTotal c' vm' = tailCallsTotal c vm + k.1 ∧
  plainCallsTotal c' vm' = plainCallsTotal c vm + k.2

lemma regionFine_of_le {base : Nat} {l : List Instruction}
    (h : l.length ≤ base) : RegionFine base l := by
  intro i s hi hget
  exfalso
  have hnone : l[i]? = none := List.getElem?_eq_none (by omega)
  rcases hget with hget | hget <;> rw [hnone] at hget <;> exact Option.noConfusion hget

lemma regionFine_push {base : Nat} {l : List Instruction} {x : Instruction}
    (h : RegionFine base l) (hx : isJumpLike x = false) :
    RegionFine base (l ++ [x]) := by
  intro i s hi hget
  by_cases hil : i < l.length
  · have heq : (l ++ [x])[i]? = l[i]? := List.getElem?_append_left hil
    rw [heq] at hget
    have := h i s hi hget
    simp only [List.length_append, List.length_cons, List.length_nil]
    omega
  · by_cases hix : i = l.length
    · subst hix
      have heq : (l ++ [x])[l.length]? = some x := by
        rw [List.getElem?_append_right (le_refl _)]
        simp
      rw [heq] at hget
      rcases hget with hget | hget <;>
        · have hx2 := Option.some.inj hget
          rw [hx2] at hx
          simp [isJumpLike] at hx
    · exfalso
      have hnone : (l ++ [x])[i]? = none := by
        apply List.getElem?_eq_none
        simp only [List.length_append, List.length_cons, List.length_nil]
        omega
      rcases hget with hget | hget <;> rw [hnone] at hget <;> exact Option.noConfusion hget

lemma create_constant_functions {vm : Vm} {v : Value} {i : Nat} {vm' : Vm}
    (h : create_constant vm v = .ok (i, vm')) : vm'.functions = vm.functions := by
  unfold create_constant at h
  by_cases hge : vm.constants.length ≥ 65535
  · rw [if_pos hge] at h
    exact absurd h (by simp)
  · rw [if_neg hge] at h
    cases hfind : vm.constants.findIdx? (fun w => valueEq w v) with
    | some j => rw [hfind] at h; cases h; rfl
    | none => rw [hfind] at h; cases h; rfl

lemma create_identifier_functions {vm : Vm} {s : String} {i : Nat} {vm' : Vm}
    (h : create_identifier vm s = .ok (i, vm')) : vm'.functions = vm.functions := by
  unfold create_identifier at h
  by_cases hge : vm.identifiers.length ≥ 65535
  · rw [if_pos hge] at h
    exact absurd h (by simp)
  · rw [if_neg hge] at h
    cases hfind : vm.identifiers.findIdx? (fun w => w == s) with
    | some j => rw [hfind] at h; cases h; rfl
    | none => rw [hfind] at h; cases h; rfl

lemma advances_of_functions_eq {c : Compiler} {vm vm' : Vm}
    (h : vm'.functions = vm.functions) : Advances c c vm vm' (0, 0) := by
  refine ⟨⟨[], by simp⟩, ⟨[], by simp [h], by simp⟩, regionFine_of_le le_rfl, ?_, ?_⟩ <;>
    simp [tailCallsTotal, plainCallsTotal, h]

lemma advances_trans {c c1 c2 : Compiler} {vm vm1 vm2 : Vm} {k1 k2 : Nat × Nat}
    (h1 : Advances c c1 vm vm1 k1) (h2 : Advances c1 c2 vm1 vm2 k2) :
    Advances c c2 vm vm2 (k1 + k2) := by
  obtain ⟨⟨s1, hs1⟩, ⟨fs1, hfs1, hfs1fine⟩, hr1, ht1, hp1⟩ := h1
  obtain ⟨⟨s2, hs2⟩, ⟨fs2, hfs2, hfs2fine⟩, hr2, ht2, hp2⟩ := h2
  refine ⟨⟨s1 ++ s2, by rw [hs2, hs1, List.append_assoc]⟩,
          ⟨fs1 ++ fs2, by rw [hfs2, hfs1, List.append_assoc], ?_⟩, ?_, ?_, ?_⟩
  · intro f hf
    rcases List.mem_append.mp hf with hf | hf
    · exact hfs1fine f hf
    · exact hfs2fine f hf
  · -- stitch the two regions
    intro i s hi hget
    have hlen1 : c.bytecode.length ≤ c1.bytecode.length := by
      rw [hs1]; simp
    have hlen2 : c1.bytecode.length ≤ c2.bytecode.length := by
      rw [hs2]; simp
    by_cases hil : i < c1.bytecode.length
    · have heq : c2.bytecode[i]? = c1.bytecode[i]? := by
        rw [hs2]; exact List.getElem?_append_left hil
      rw [heq] at hget
      have := hr1 i s hi hget
      omega
    · exact hr2 i s (by omega) hget
  · simp only [Prod.fst_add]
    omega
  · simp only [Prod.snd_add]
    omega

lemma advances_push {c c' : Compiler} {vm vm' : Vm} {k : Nat × Nat}
    (h : Advances c c' vm vm' k) (x : Instruction) (hx : isJumpLike x = false) :
    Advances c { c' with bytecode := c'.bytecode ++ [x] } vm vm'
      (k + ((if isTailCallInstr x then 1 else 0),
            (if isCallInstr x then 1 else 0))) := by
  obtain ⟨⟨s, hs⟩, hfs, hr, ht, hp⟩ := h
  refine ⟨⟨s ++ [x], by simp [hs]⟩, hfs, ?_, ?_, ?_⟩
  · exact regionFine_push hr hx
  · simp only [tailCallsTotal, tailCallsIn, List.countP_append, Prod.fst_add] at *
    simp [List.countP_cons]
    omega
  · simp only [plainCallsTotal, plainCallsIn, List.countP_append, Prod.snd_add] at *
    simp [List.countP_cons]
    omega

lemma advances_locals {c : Compiler} {vm : Vm} (locals' : List Local) :
    Advances c { c with locals := locals' } vm vm (0, 0) :=
  ⟨⟨[], by simp⟩, ⟨[], by simp, by simp⟩, regionFine_of_le le_rfl,
   by simp [tailCallsTotal], by simp [plainCallsTotal]⟩

lemma advances_congr_k {c c' : Compiler} {vm vm' : Vm} {k k' : Nat × Nat}
    (h : Advances c c' vm vm' k) (hk : k' = k) : Advances c c' vm vm' k' := by
  rw [hk]; exact h

lemma except_bind_ok {ε α β : Type} {x : Except ε α} {f : α → Except ε β}
    {r : β} : (x >>= f) = .ok r ↔ ∃ a, x = .ok a ∧ f a = .ok r := by
  cases x <;> simp [Bind.bind, Except.bind]

lemma set_len_append {α : Type} (l : List α) (x y : α) (r : List α) :
    (l ++ x :: r).set l.length y = l ++ y :: r := by
  induction l with
  | nil => rfl
  | cons a l ih => simp [List.set, ih]

lemma getElem?_mid {α : Type} (b : List α) (x : α) (r : List α) (i : Nat) :
    (b ++ x :: r)[i]? =
      if i < b.length then b[i]?
      else if i = b.length then some x
      else r[i - b.length - 1]? := by
  by_cases h1 : i < b.length
  · rw [if_pos h1, List.getElem?_append_left h1]
  · rw [if_neg h1]
    by_cases h2 : i = b.length
    · subst h2
      rw [if_pos rfl, List.getElem?_append_right (le_refl _)]
      simp
    · rw [if_neg h2, List.getElem?_append_right (by omega)]
      have : i - b.length = (i - b.length - 1) + 1 := by omega
      rw [this]
      simp

/-- Jump-target validity of the fully back-patched `if`/`jump` block
produced by the `Term::If` arm, assembled from the validity of the three
compiled sub-regions. -/
lemma regionFine_patched {base : Nat} {b1 s3 s6 : List Instruction}
    (hb : base ≤ b1.length)
    (h1 : RegionFine base b1)
    (h3 : RegionFine (b1.length + 1) (b1 ++ Instruction.if_ 0 :: s3))
    (h6 : RegionFine (b1.length + s3.length + 2)
      ((b1 ++ Instruction.if_ (s3.length + 1) :: s3) ++
        Instruction.jump 0 :: s6))
    (hs6 : s6 ≠ []) :
    RegionFine base
      ((b1 ++ Instruction.if_ (s3.length + 1) :: s3) ++
        Instruction.jump s6.length :: s6) := by
  have hs6len : 0 < s6.length := List.length_pos.mpr hs6
  intro i s hi hget
  have hmidlen : (b1 ++ Instruction.if_ (s3.length + 1) :: s3).length =
      b1.length + s3.length + 1 := by simp; omega
  have hF : ∀ z : Instruction,
      ((b1 ++ Instruction.if_ (s3.length + 1) :: s3) ++ z :: s6)[i]? =
        if i < b1.length then b1[i]?
        else if i = b1.length then some (Instruction.if_ (s3.length + 1))
        else if i < b1.length + s3.length + 1 then s3[i - b1.length - 1]?
        else if i = b1.length + s3.length + 1 then some z
        else s6[i - b1.length - s3.length - 2]? := by
    intro z
    rw [getElem?_mid, hmidlen, getElem?_mid]
    split_ifs <;>
      first
        | rfl
        | omega
        | (congr 1; omega)
        | (exfalso; omega)
  have hlenF :
      ((b1 ++ Instruction.if_ (s3.length + 1) :: s3) ++
        Instruction.jump s6.length :: s6).length =
      b1.length + s3.length + s6.length + 2 := by simp; omega
  rw [hlenF]
  rw [hF] at hget
  by_cases c1 : i < b1.length
  · rw [if_pos c1] at hget
    have := h1 i s hi hget
    omega
  · rw [if_neg c1] at hget
    by_cases c2 : i = b1.length
    · rw [if_pos c2] at hget
      have hs' : s = s3.length + 1 := by
        rcases hget with hget | hget
        · have h' := Option.some.inj hget
          injection h' with h''
          omega
        · exact absurd (Option.some.inj hget) (by intro hcontra; cases hcontra)
      omega
    · rw [if_neg c2] at hget
      by_cases c3 : i < b1.length + s3.length + 1
      · rw [if_pos c3] at hget
        have hget3 :
            (b1 ++ Instruction.if_ 0 :: s3)[i]? = some (Instruction.if_ s) ∨
            (b1 ++ Instruction.if_ 0 :: s3)[i]? = some (Instruction.jump s) := by
          rw [getElem?_mid, if_neg c1, if_neg c2]
          exact hget
        have hres := h3 i s (by omega) hget3
        have hlen3 : (b1 ++ Instruction.if_ 0 :: s3).length =
            b1.length + s3.length + 1 := by simp; omega
        rw [hlen3] at hres
        omega
      · rw [if_neg c3] at hget
        by_cases c4 : i = b1.length + s3.length + 1
        · rw [if_pos c4] at hget
          have hs' : s = s6.length := by
            rcases hget with hget | hget
            · exact absurd (Option.some.inj hget)
                (by intro hcontra; cases hcontra)
            · have h' := Option.some.inj hget
              injection h' with h''
              omega
          omega
        · rw [if_neg c4] at hget
          have hget6 :
              ((b1 ++ Instruction.if_ (s3.length + 1) :: s3) ++
                Instruction.jump 0 :: s6)[i]? = some (Instruction.if_ s) ∨
              ((b1 ++ Instruction.if_ (s3.length + 1) :: s3) ++
                Instruction.jump 0 :: s6)[i]? = some (Instruction.jump s) := by
            rw [hF (Instruction.jump 0), if_neg c1, if_neg c2, if_neg c3,
              if_neg c4]
            exact hget
          have hres := h6 i s (by omega) hget6
          have hlen6 : ((b1 ++ Instruction.if_ (s3.length + 1) :: s3) ++
              Instruction.jump 0 :: s6).length =
              b1.length + s3.length + s6.length + 2 := by simp; omega
          rw [hlen6] at hres
          omega

set_option maxHeartbeats 1000000

theorem compileF_advances (fuel : Nat) :
    (∀ t c vm p c' vm', compileF fuel t c vm p = .ok (c', vm') →
      Advances c c' vm vm' (specCountsF fuel t p) ∧
      c.bytecode.length < c'.bytecode.length) ∧
    (∀ ts c vm c' vm', compileArgsF fuel ts c vm = .ok (c', vm') →
      Advances c c' vm vm' (specCountsArgsF fuel ts)) := by
  induction fuel with
  | zero =>
      constructor
      · intro t c vm p c' vm' h
        simp [compileF] at h
      · intro ts c vm c' vm' h
        simp [compileArgsF] at h
  | succ fuel ih =>
      obtain ⟨ihT, ihA⟩ := ih
      refine ⟨?_, ?_⟩
      · intro t c vm p c' vm' h
        cases t with
        | int i =>
            simp only [compileF] at h
            obtain ⟨⟨idx, vm1⟩, hcc, h⟩ := except_bind_ok.mp h
            simp only [] at h
            obtain ⟨rfl, rfl⟩ : _ ∧ _ := by
              simpa [Prod.ext_iff] using h
            refine ⟨?_, by simp⟩
            have adv := advances_push (c := c)
              (advances_of_functions_eq (create_constant_functions hcc))
              (.constant idx) rfl
            exact advances_congr_k adv
              (by simp [specCountsF, isTailCallInstr, isCallInstr])
        | bool b =>
            simp only [compileF] at h
            obtain ⟨rfl, rfl⟩ : _ ∧ _ := by
              simpa [Prod.ext_iff] using h
            refine ⟨?_, by simp⟩
            have adv := advances_push (c := c)
              (@advances_of_functions_eq c vm vm rfl)
              (if b then Instruction.true_ else Instruction.false_)
              (by cases b <;> rfl)
            exact advances_congr_k adv
              (by cases b <;> simp [specCountsF, isTailCallInstr, isCallInstr])
        | str s =>
            simp only [compileF] at h
            obtain ⟨⟨idx, vm1⟩, hcc, h⟩ := except_bind_ok.mp h
            simp only [] at h
            obtain ⟨rfl, rfl⟩ : _ ∧ _ := by
              simpa [Prod.ext_iff] using h
            refine ⟨?_, by simp⟩
            have adv := advances_push (c := c)
              (advances_of_functions_eq (create_constant_functions hcc))
              (.constant idx) rfl
            exact advances_congr_k adv
              (by simp [specCountsF, isTailCallInstr, isCallInstr])
        | binary op lhs rhs =>
            simp only [compileF] at h
            obtain ⟨⟨c1, vm1⟩, h1, h⟩ := except_bind_ok.mp h
            simp only [] at h
            obtain ⟨⟨c2, vm2⟩, h2, h⟩ := except_bind_ok.mp h
            simp only [] at h
            obtain ⟨rfl, rfl⟩ : _ ∧ _ := by
              simpa [Prod.ext_iff] using h
            have g1 := ihT lhs c vm .unknown c1 vm1 h1
            have g2 := ihT rhs c1 vm1 .unknown c2 vm2 h2
            refine ⟨?_, ?_⟩
            · have adv := advances_push (advances_trans g1.1 g2.1)
                (binaryOpInstruction op) (by cases op <;> rfl)
              exact advances_congr_k adv
                (by cases op <;>
                  simp [specCountsF, binaryOpInstruction, isTailCallInstr,
                    isCallInstr, Prod.ext_iff, Prod.fst_add, Prod.snd_add])
            · have hg1 := g1.2
              have hg2 := g2.2
              simp only [List.length_append, List.length_cons, List.length_nil]
              omega
        | tuple a b =>
            simp only [compileF] at h
            obtain ⟨⟨c1, vm1⟩, h1, h⟩ := except_bind_ok.mp h
            simp only [] at h
            obtain ⟨⟨c2, vm2⟩, h2, h⟩ := except_bind_ok.mp h
            simp only [] at h
            obtain ⟨rfl, rfl⟩ : _ ∧ _ := by
              simpa [Prod.ext_iff] using h
            have g1 := ihT a c vm .unknown c1 vm1 h1
            have g2 := ihT b c1 vm1 .unknown c2 vm2 h2
            refine ⟨?_, ?_⟩
            · have adv := advances_push (advances_trans g1.1 g2.1)
                Instruction.tuple rfl
              exact advances_congr_k adv
                (by simp [specCountsF, isTailCallInstr, isCallInstr,
                  Prod.ext_iff, Prod.fst_add, Prod.snd_add])
            · have hg1 := g1.2
              have hg2 := g2.2
              simp only [List.length_append, List.length_cons, List.length_nil]
              omega
        | first t1 =>
            simp only [compileF] at h
            obtain ⟨⟨c1, vm1⟩, h1, h⟩ := except_bind_ok.mp h
            simp only [] at h
            obtain ⟨rfl, rfl⟩ : _ ∧ _ := by
              simpa [Prod.ext_iff] using h
            have g1 := ihT t1 c vm .unknown c1 vm1 h1
            refine ⟨?_, ?_⟩
            · have adv := advances_push g1.1 Instruction.first rfl
              exact advances_congr_k adv
                (by simp [specCountsF, isTailCallInstr, isCallInstr,
                  Prod.ext_iff, Prod.fst_add, Prod.snd_add])
            · have hg1 := g1.2
              simp only [List.length_append, List.length_cons, List.length_nil]
              omega
        | second t1 =>
            simp only [compileF] at h
            obtain ⟨⟨c1, vm1⟩, h1, h⟩ := except_bind_ok.mp h
            simp only [] at h
            obtain ⟨rfl, rfl⟩ : _ ∧ _ := by
              simpa [Prod.ext_iff] using h
            have g1 := ihT t1 c vm .unknown c1 vm1 h1
            refine ⟨?_, ?_⟩
            · have adv := advances_push g1.1 Instruction.second rfl
              exact advances_congr_k adv
                (by simp [specCountsF, isTailCallInstr, isCallInstr,
                  Prod.ext_iff, Prod.fst_add, Prod.snd_add])
            · have hg1 := g1.2
              simp only [List.length_append, List.length_cons, List.length_nil]
              omega
        | print t1 =>
            simp only [compileF] at h
            obtain ⟨⟨c1, vm1⟩, h1, h⟩ := except_bind_ok.mp h
            simp only [] at h
            obtain ⟨rfl, rfl⟩ : _ ∧ _ := by
              simpa [Prod.ext_iff] using h
            have g1 := ihT t1 c vm .unknown c1 vm1 h1
            refine ⟨?_, ?_⟩
            · have adv := advances_push g1.1 Instruction.print rfl
              exact advances_congr_k adv
                (by simp [specCountsF, isTailCallInstr, isCallInstr,
                  Prod.ext_iff, Prod.fst_add, Prod.snd_add])
            · have hg1 := g1.2
              simp only [List.length_append, List.length_cons, List.length_nil]
              omega
        | var text =>
            simp only [compileF] at h
            obtain ⟨⟨idx, vm1⟩, hci, h⟩ := except_bind_ok.mp h
            simp only [] at h
            cases hres : resolve_local c text with
            | some li =>
                rw [hres] at h
                simp only [] at h
                obtain ⟨rfl, rfl⟩ : _ ∧ _ := by
                  simpa [Prod.ext_iff] using h
                refine ⟨?_, by simp⟩
                have adv := advances_push (c := c)
                  (advances_of_functions_eq (create_identifier_functions hci))
                  (.localGet li idx) rfl
                exact advances_congr_k adv
                  (by simp [specCountsF, isTailCallInstr, isCallInstr])
            | none =>
                rw [hres] at h
                simp only [] at h
                obtain ⟨rfl, rfl⟩ : _ ∧ _ := by
                  simpa [Prod.ext_iff] using h
                refine ⟨?_, by simp⟩
                have adv := advances_push (c := c)
                  (advances_of_functions_eq (create_identifier_functions hci))
                  (.globalGet idx) rfl
                exact advances_congr_k adv
                  (by simp [specCountsF, isTailCallInstr, isCallInstr])
        | letE name value next =>
            simp only [compileF] at h
            obtain ⟨⟨c1, vm1⟩, h1, h⟩ := except_bind_ok.mp h
            simp only [] at h
            obtain ⟨⟨idx, vm2⟩, hci, h⟩ := except_bind_ok.mp h
            simp only [] at h
            have g1 := ihT value c vm .unknown c1 vm1 h1
            have advId : Advances c1 c1 vm1 vm2 (0, 0) :=
              advances_of_functions_eq (create_identifier_functions hci)
            by_cases hpar : c1.hasParent = true
            · rw [if_pos hpar] at h
              have g3 := ihT next { c1 with locals := c1.locals ++ [⟨name⟩] }
                vm2 p c' vm' h
              refine ⟨?_, ?_⟩
              · have adv := advances_trans (advances_trans
                  (advances_trans g1.1 advId) (advances_locals _)) g3.1
                exact advances_congr_k adv
                  (by simp [specCountsF, Prod.ext_iff, Prod.fst_add,
                    Prod.snd_add])
              · have hg1 := g1.2
                have hg3 := g3.2
                simp only [] at hg3
                omega
            · rw [if_neg hpar] at h
              have g3 := ihT next
                { c1 with bytecode := c1.bytecode ++ [.globalSet idx] }
                vm2 p c' vm' h
              refine ⟨?_, ?_⟩
              · have advSet := advances_push (c := c1) advId
                  (.globalSet idx) rfl
                have adv := advances_trans (advances_trans g1.1 advSet) g3.1
                exact advances_congr_k adv
                  (by simp [specCountsF, isTailCallInstr, isCallInstr,
                    Prod.ext_iff, Prod.fst_add, Prod.snd_add])
              · have hg1 := g1.2
                have hg3 := g3.2
                simp only [List.length_append, List.length_cons,
                  List.length_nil] at hg3
                omega
        | ifE condition then_ otherwise =>
            simp only [compileF] at h
            obtain ⟨⟨c1, vm1⟩, h1, h⟩ := except_bind_ok.mp h
            simp only [] at h
            split at h
            · simp at h
            · obtain ⟨⟨c3, vm3⟩, h3, h⟩ := except_bind_ok.mp h
              simp only [] at h
              split at h
              · simp at h
              · obtain ⟨⟨c6, vm6⟩, h6, h⟩ := except_bind_ok.mp h
                simp only [] at h
                split at h
                · simp at h
                · obtain ⟨rfl, rfl⟩ : _ ∧ _ := by
                    simpa [Prod.ext_iff] using h
                  have g1 := ihT condition c vm .unknown c1 vm1 h1
                  have g3 := ihT then_ _ vm1 p c3 vm3 h3
                  have g6 := ihT otherwise _ vm3 p c6 vm6 h6
                  obtain ⟨⟨s1, hs1⟩, ⟨fs1, hf1, hf1fine⟩, hr1, ht1, hp1⟩ := g1.1
                  obtain ⟨⟨s3, hs3⟩, ⟨fs3, hf3, hf3fine⟩, hr3, ht3, hp3⟩ := g3.1
                  obtain ⟨⟨s6, hs6⟩, ⟨fs6, hf6, hf6fine⟩, hr6, ht6, hp6⟩ := g6.1
                  have hg3len := g3.2
                  have hg6len := g6.2
                  try dsimp only [] at hs3 hf3 hr3 ht3 hp3 hs6 hf6 hr6 ht6 hp6 hg3len hg6len
                  have hl1 : c.bytecode.length ≤ c1.bytecode.length := by
                    rw [hs1]; simp
                  have he3 : c3.bytecode = c1.bytecode ++ Instruction.if_ 0 :: s3 := by
                    rw [hs3]; simp
                  have hlen3 : c3.bytecode.length = c1.bytecode.length + s3.length + 1 := by
                    rw [he3]; simp [List.length_append]; omega
                  have hSk : (c3.bytecode ++ [Instruction.jump 0]).length - 1 - ((c1.bytecode ++ [Instruction.if_ 0]).length - 1) = s3.length + 1 := by
                    simp [hlen3]
                    omega
                  have hL : (c1.bytecode ++ [Instruction.if_ 0]).length - 1 = c1.bytecode.length := by
                    simp
                  have hC5 : (c3.bytecode ++ [Instruction.jump 0]).set ((c1.bytecode ++ [Instruction.if_ 0]).length - 1) (Instruction.if_ ((c3.bytecode ++ [Instruction.jump 0]).length - 1 - ((c1.bytecode ++ [Instruction.if_ 0]).length - 1))) = c1.bytecode ++ Instruction.if_ (s3.length + 1) :: (s3 ++ [Instruction.jump 0]) := by
                    rw [hSk, hL, he3]
                    have hassoc : (c1.bytecode ++ Instruction.if_ 0 :: s3) ++ [Instruction.jump 0] = c1.bytecode ++ Instruction.if_ 0 :: (s3 ++ [Instruction.jump 0]) := by
                      simp
                    rw [hassoc]
                    exact set_len_append c1.bytecode _ _ _
                  rw [hC5] at hs6 hr6 ht6 hp6 hg6len h6
                  have hlen5 : (c1.bytecode ++ Instruction.if_ (s3.length + 1) :: (s3 ++ [Instruction.jump 0])).length = c1.bytecode.length + s3.length + 2 := by
                    simp [List.length_append]
                    omega
                  have hre : c6.bytecode = (c1.bytecode ++ Instruction.if_ (s3.length + 1) :: s3) ++ Instruction.jump 0 :: s6 := by
                    rw [hs6]
                    simp
                  have hlen6 : c6.bytecode.length = c1.bytecode.length + s3.length + s6.length + 2 := by
                    rw [hre]; simp [List.length_append]; omega
                  have hmid : (c1.bytecode ++ Instruction.if_ (s3.length + 1) :: s3).length = c3.bytecode.length := by
                    simp [hlen3, List.length_append]
                    omega
                  have hy : c6.bytecode.length - 1 - c3.bytecode.length = s6.length := by
                    omega
                  have hs6ne : s6 ≠ [] := by
                    intro hnil
                    rw [hlen5] at hg6len
                    rw [hnil] at hlen6
                    simp at hlen6
                    omega
                  have hF : c6.bytecode.set c3.bytecode.length (Instruction.jump (c6.bytecode.length - 1 - c3.bytecode.length)) = (c1.bytecode ++ Instruction.if_ (s3.length + 1) :: s3) ++ Instruction.jump s6.length :: s6 := by
                    rw [hy, hre, ← hmid]
                    exact set_len_append _ _ _ _
                  have hr3' : RegionFine (c1.bytecode.length + 1) (c1.bytecode ++ Instruction.if_ 0 :: s3) := by
                    rw [← he3]
                    have hb32 : (c1.bytecode ++ [Instruction.if_ 0]).length = c1.bytecode.length + 1 := by simp
                    rw [← hb32]
                    exact hr3
                  have hr6' : RegionFine (c1.bytecode.length + s3.length + 2) ((c1.bytecode ++ Instruction.if_ (s3.length + 1) :: s3) ++ Instruction.jump 0 :: s6) := by
                    rw [← hre, ← hlen5]
                    exact hr6
                  refine ⟨⟨⟨s1 ++ Instruction.if_ (s3.length + 1) :: (s3 ++ Instruction.jump s6.length :: s6), ?_⟩, ⟨fs1 ++ (fs3 ++ fs6), ?_, ?_⟩, ?_, ?_, ?_⟩, ?_⟩
                  · show c6.bytecode.set c3.bytecode.length (Instruction.jump (c6.bytecode.length - 1 - c3.bytecode.length)) = _
                    rw [hF, hs1]
                    simp
                  · show vm6.functions = _
                    rw [hf6, hf3, hf1]
                    simp
                  · intro f hf
                    rcases List.mem_append.mp hf with hf | hf
                    · exact hf1fine f hf
                    · rcases List.mem_append.mp hf with hf | hf
                      · exact hf3fine f hf
                      · exact hf6fine f hf
                  · show RegionFine c.bytecode.length (c6.bytecode.set c3.bytecode.length (Instruction.jump (c6.bytecode.length - 1 - c3.bytecode.length)))
                    rw [hF]
                    exact regionFine_patched hl1 hr1 hr3' hr6' hs6ne
                  · show tailCallsTotal _ vm6 = _
                    simp only [tailCallsTotal, tailCallsIn] at ht1 ht3 ht6 ⊢
                    try dsimp only [] at ht1 ht3 ht6
                    rw [he3] at ht3
                    rw [hre] at ht6
                    rw [hF]
                    simp only [List.countP_append, List.countP_cons, List.countP_nil, specCountsF, Prod.fst_add] at ht1 ht3 ht6 ⊢
                    simp only [isTailCallInstr, Bool.false_eq_true, if_false] at ht3 ht6 ⊢
                    omega
                  · show plainCallsTotal _ vm6 = _
                    simp only [plainCallsTotal, plainCallsIn] at hp1 hp3 hp6 ⊢
                    try dsimp only [] at hp1 hp3 hp6
                    rw [he3] at hp3
                    rw [hre] at hp6
                    rw [hF]
                    simp only [List.countP_append, List.countP_cons, List.countP_nil, specCountsF, Prod.snd_add] at hp1 hp3 hp6 ⊢
                    simp only [isCallInstr, Bool.false_eq_true, if_false] at hp3 hp6 ⊢
                    omega
                  · show c.bytecode.length < (c6.bytecode.set c3.bytecode.length (Instruction.jump (c6.bytecode.length - 1 - c3.bytecode.length))).length
                    simp only [List.length_set]
                    omega
        | function params body =>
            simp only [compileF] at h
            cases hcap : computeCaptured fuel body (params.foldl insertName []) with
            | none => rw [hcap] at h; simp [bind, Except.bind] at h
            | some captured =>
                rw [hcap] at h
                simp only [bind, Except.bind] at h
                obtain ⟨⟨child, vm1⟩, hb, h⟩ := except_bind_ok.mp h
                try simp only [] at h
                obtain ⟨rfl, rfl⟩ : _ ∧ _ := by
                  simpa [Prod.ext_iff] using h
                have gB := ihT body _ vm .tail child vm1 hb
                obtain ⟨⟨sB, hsB⟩, ⟨fsB, hfsB, hfsBfine⟩, hrB, htB, hpB⟩ := gB.1
                refine ⟨⟨⟨[Instruction.closure vm1.functions.length], rfl⟩,
                  ⟨fsB ++ [{ arity := params.length, bytecode := child.bytecode ++ [Instruction.return_ child.locals.length], captured := captured, index := vm1.functions.length, locals := child.locals }], ?_, ?_⟩, ?_, ?_, ?_⟩, by simp⟩
                · rw [hfsB]
                  simp
                · intro f hf
                  rcases List.mem_append.mp hf with hf | hf
                  · exact hfsBfine f hf
                  · rcases List.mem_singleton.mp hf with rfl
                    refine regionFine_push ?_ rfl
                    exact hrB
                · exact regionFine_push (regionFine_of_le le_rfl) rfl
                · simp only [specCountsF]
                  simp only [tailCallsTotal, tailCallsIn,
                    List.countP_append, List.countP_cons, List.map_append,
                    List.sum_append, List.countP_nil, List.map_cons,
                    List.sum_cons, List.map_nil, List.sum_nil] at htB ⊢
                  rw [hfsB] at htB ⊢
                  simp only [List.map_append, List.sum_append] at htB ⊢
                  simp [isTailCallInstr] at htB ⊢
                  omega
                · simp only [specCountsF]
                  simp only [plainCallsTotal, plainCallsIn,
                    List.countP_append, List.countP_cons, List.map_append,
                    List.sum_append, List.countP_nil, List.map_cons,
                    List.sum_cons, List.map_nil, List.sum_nil] at hpB ⊢
                  rw [hfsB] at hpB ⊢
                  simp only [List.map_append, List.sum_append] at hpB ⊢
                  simp [isCallInstr] at hpB ⊢
                  omega
        | call callee args =>
            simp only [compileF] at h
            obtain ⟨⟨c1, vm1⟩, h1, h⟩ := except_bind_ok.mp h
            simp only [] at h
            obtain ⟨⟨c2, vm2⟩, h2, h⟩ := except_bind_ok.mp h
            simp only [] at h
            have g1 := ihT callee c vm .unknown c1 vm1 h1
            have g2 := ihA args c1 vm1 c2 vm2 h2
            cases p with
            | tail =>
                simp only [reduceIte] at h
                obtain ⟨rfl, rfl⟩ : _ ∧ _ := by
                  simpa [Prod.ext_iff] using h
                refine ⟨?_, ?_⟩
                · have adv := advances_push (advances_trans g1.1 g2)
                    (.tailCall args.length) rfl
                  exact advances_congr_k adv
                    (by simp [specCountsF, isTailCallInstr, isCallInstr,
                      Prod.ext_iff, Prod.fst_add, Prod.snd_add]; omega)
                · have hg1 := g1.2
                  simp only [List.length_append, List.length_cons,
                    List.length_nil]
                  obtain ⟨⟨s2, hs2⟩, -⟩ := g2
                  have hcc : c1.bytecode.length ≤ c2.bytecode.length := by
                    rw [hs2]; simp
                  omega
            | unknown =>
                try simp only [reduceIte] at h
                obtain ⟨rfl, rfl⟩ : _ ∧ _ := by
                  simpa [Prod.ext_iff] using h
                refine ⟨?_, ?_⟩
                · have adv := advances_push (advances_trans g1.1 g2)
                    (.call args.length) rfl
                  exact advances_congr_k adv
                    (by simp [specCountsF, isTailCallInstr, isCallInstr,
                      Prod.ext_iff, Prod.fst_add, Prod.snd_add]; omega)
                · have hg1 := g1.2
                  simp only [List.length_append, List.length_cons,
                    List.length_nil]
                  obtain ⟨⟨s2, hs2⟩, -⟩ := g2
                  have hcc : c1.bytecode.length ≤ c2.bytecode.length := by
                    rw [hs2]; simp
                  omega
        | error msg => simp only [compileF] at h; exact absurd h (by simp)
      · intro ts c vm c' vm' h
        cases ts with
        | nil =>
            simp only [compileArgsF] at h
            obtain ⟨rfl, rfl⟩ : c = c' ∧ vm = vm' := by
              simpa [Prod.ext_iff] using h
            exact advances_congr_k (advances_of_functions_eq rfl)
              (by simp [specCountsArgsF])
        | cons a rest =>
            simp only [compileArgsF] at h
            obtain ⟨⟨c1, vm1⟩, h1, h⟩ := except_bind_ok.mp h
            simp only [] at h
            have adv1 := (ihT a c vm .unknown c1 vm1 h1).1
            have adv2 := ihA rest c1 vm1 c' vm' h
            exact advances_congr_k (advances_trans adv1 adv2)
              (by simp [specCountsArgsF])

/-- C1: a `Call` term compiled in `Tail` position (the root of a function
body, either branch of an `if` in tail position, the `next` of a `let` in
tail position) emits `TailCall`; a `Call` term in any other position emits
plain `Call`.  Stated as an exact count over a successful whole-program
compile: the `TailCall` opcodes across the instruction buffer and all
recorded function bodies number exactly `(specCountsF fuel t .unknown).1`,
the spec-side count of `Call` terms sitting in tail position, and the plain
`Call` opcodes number exactly `(specCountsF fuel t .unknown).2`, the count
of `Call` terms in any other position. -/
theorem tailcall_iff_tail_position (fuel : Nat) (t : Term) (vm : Vm)
    (c' : Compiler) (vm' : Vm)
    (h : vmCompile fuel t vm = .ok (c', vm')) :
    tailCallsTotal c' vm' =
      tailCallsTotal (Compiler.new false) vm + (specCountsF fuel t .unknown).1 ∧
    plainCallsTotal c' vm' =
      plainCallsTotal (Compiler.new false) vm + (specCountsF fuel t .unknown).2 := by
  have adv := ((compileF_advances fuel).1 t (Compiler.new false) vm .unknown c' vm' h).1
  exact ⟨adv.2.2.2.1, adv.2.2.2.2⟩

/-- Witness for `tailcall_iff_tail_position`: compiling `fn (x) => g(x)`
emits exactly one `TailCall` — the call to `g` at the root of the function
body — and no plain `Call`. -/
theorem tailcall_iff_tail_position_witness :
    vmCompile 30 (Term.function ["x"] (Term.call (Term.var "g") [Term.var "x"])) Vm.new = Except.ok ({ hasParent := false, bytecode := [Instruction.closure 0], locals := [] }, { Vm.new with identifiers := ["g", "x"], functions := [{ arity := 1, bytecode := [Instruction.globalGet 0, Instruction.localGet 0 1, Instruction.tailCall 1, Instruction.return_ 1], captured := ["g"], index := 0, locals := [{ name := "x" }] }] }) ∧
    (tailCallsTotal { hasParent := false, bytecode := [Instruction.closure 0], locals := [] } { Vm.new with identifiers := ["g", "x"], functions := [{ arity := 1, bytecode := [Instruction.globalGet 0, Instruction.localGet 0 1, Instruction.tailCall 1, Instruction.return_ 1], captured := ["g"], index := 0, locals := [{ name := "x" }] }] } = tailCallsTotal (Compiler.new false) Vm.new + (specCountsF 30 (Term.function ["x"] (Term.call (Term.var "g") [Term.var "x"])) CallPosition.unknown).1 ∧
     plainCallsTotal { hasParent := false, bytecode := [Instruction.closure 0], locals := [] } { Vm.new with identifiers := ["g", "x"], functions := [{ arity := 1, bytecode := [Instruction.globalGet 0, Instruction.localGet 0 1, Instruction.tailCall 1, Instruction.return_ 1], captured := ["g"], index := 0, locals := [{ name := "x" }] }] } = plainCallsTotal (Compiler.new false) Vm.new + (specCountsF 30 (Term.function ["x"] (Term.call (Term.var "g") [Term.var "x"])) CallPosition.unknown).2) ∧
    specCountsF 30 (Term.function ["x"] (Term.call (Term.var "g") [Term.var "x"])) CallPosition.unknown = (1, 0) :=
  ⟨rfl, tailcall_iff_tail_position 30 (Term.function ["x"] (Term.call (Term.var "g") [Term.var "x"])) Vm.new { hasParent := false, bytecode := [Instruction.closure 0], locals := [] } { Vm.new with identifiers := ["g", "x"], functions := [{ arity := 1, bytecode := [Instruction.globalGet 0, Instruction.localGet 0 1, Instruction.tailCall 1, Instruction.return_ 1], captured := ["g"], index := 0, locals := [{ name := "x" }] }] } rfl, rfl⟩

/-- C6: in every instruction stream a successful whole-program compile
produces — the final instruction buffer and every recorded function body —
each `If(skip)` or `Jump(skip)` at position `i` has `0 < skip` and a target
`i + skip` strictly inside the same block. -/
theorem jump_targets_in_range (fuel : Nat) (t : Term) (c' : Compiler)
    (vm' : Vm) (h : vmCompile fuel t Vm.new = .ok (c', vm')) :
    RegionFine 0 c'.bytecode ∧ ∀ f ∈ vm'.functions, RegionFine 0 f.bytecode := by
  have adv := ((compileF_advances fuel).1 t (Compiler.new false) Vm.new .unknown c' vm' h).1
  obtain ⟨-, ⟨fs, hfs, hfine⟩, hr, -, -⟩ := adv
  refine ⟨?_, ?_⟩
  · have h0 : (Compiler.new false).bytecode.length = 0 := rfl
    rw [h0] at hr
    exact hr
  · intro f hf
    rw [hfs] at hf
    have hnil : Vm.new.functions = ([] : List Function) := rfl
    rw [hnil] at hf
    simp only [List.nil_append] at hf
    exact hfine f hf

/-- Witness for `jump_targets_in_range`: compiling `if (true) \x7b 0 \x7d else
\x7b 1 \x7d` yields the buffer `[True, If 2, Constant 0, Jump 1, Constant 1]`,
whose `If` at 1 targets 3 (the `Jump`... strictly within the block) and whose
`Jump` at 3 targets 4, and no function bodies. -/
theorem jump_targets_in_range_witness :
    vmCompile 30 (Term.ifE (Term.bool true) (Term.int 0) (Term.int 1)) Vm.new = Except.ok ({ hasParent := false, bytecode := [Instruction.true_, Instruction.if_ 2, Instruction.constant 0, Instruction.jump 1, Instruction.constant 1], locals := [] }, { Vm.new with constants := [Value.integer 0, Value.integer 1] }) ∧
    RegionFine 0 [Instruction.true_, Instruction.if_ 2, Instruction.constant 0, Instruction.jump 1, Instruction.constant 1] ∧
    ∀ f ∈ ({ Vm.new with constants := [Value.integer 0, Value.integer 1] } : Vm).functions, RegionFine 0 f.bytecode :=
  ⟨rfl,
   (jump_targets_in_range 30 (Term.ifE (Term.bool true) (Term.int 0) (Term.int 1)) { hasParent := false, bytecode := [Instruction.true_, Instruction.if_ 2, Instruction.constant 0, Instruction.jump 1, Instruction.constant 1], locals := [] } { Vm.new with constants := [Value.integer 0, Value.integer 1] } rfl).1,
   (jump_targets_in_range 30 (Term.ifE (Term.bool true) (Term.int 0) (Term.int 1)) { hasParent := false, bytecode := [Instruction.true_, Instruction.if_ 2, Instruction.constant 0, Instruction.jump 1, Instruction.constant 1], locals := [] } { Vm.new with constants := [Value.integer 0, Value.integer 1] } rfl).2⟩

end Rvm
